import Mathlib

/-!
# A shallow embedding of the lightweight-mysql-orm query/mapping core

This file embeds the query-rendering, row-mapping, CRUD and relation-loading
core of the repository (`src/core/BaseRepository.ts`, `src/core/EntityMetadata.ts`,
`src/types/common.ts`, `src/types/errors.ts`) into Lean and proves properties
about it.

Modelling conventions:

* JavaScript runtime values flowing through the ORM (row cell values, where
  operands, query parameters) are modelled by the inductive `JVal`.
  JS `undefined` is `JVal.jundef`, a `Date` object is `JVal.jdate ms`
  (milliseconds since the Unix epoch, the value `Date` wraps).
* JS objects whose own-property insertion order matters (rows, entities,
  where descriptors, `dbObject`) are association lists `List (String × JVal)`;
  `Object.entries` is the list itself, property assignment is `setProp`
  (replace-in-place or append, matching JS semantics for string keys).
* A JS `Map` built by insertion (`_columnMap`, `_relationMap`) gives
  last-set-wins lookup; `columnMapGet` therefore searches the reversed
  column list.  `Map.keys()` iterates first-insertion order, modelled by
  `dedupFirst`.
* Host primitives the code calls but does not define (`Number(...)` on
  non-numbers, `new Date(string)`, `JSON.parse`, `JSON.stringify`) are
  supplied by a `Host` structure and quantified over; the ORM's logic does
  not inspect their internals.  `Date.prototype.toISOString` is modelled
  concretely (`isoChars`) because the code's `.slice(0, 19)` on its result
  carries the second-truncation behaviour under study.
* The connection capability is a pure oracle `Db`; every repository
  operation returns its `Except`-result together with the ordered list of
  dispatched `(sql, params)` pairs, so "no query was executed" is a
  statement about that list.
-/

set_option linter.unusedVariables false

namespace LwOrm

/-- JavaScript runtime values as they flow through the ORM. -/
inductive JVal where
  | jundef
  | jnull
  | jbool (b : Bool)
  | jnum (n : Int)
  | jstr (s : String)
  | jdate (ms : Int)
  | jarr (elems : List JVal)
  | jobj (fields : List (String × JVal))

/-- JS truthiness (`if (v)`).  `0`, `''`, `null`, `undefined`, `false` are
falsy; every object (including dates, arrays, plain objects) is truthy. -/
def jsTruthy : JVal → Bool
  | .jundef => false
  | .jnull => false
  | .jbool b => b
  | .jnum n => n != 0
  | .jstr s => s ≠ ""
  | .jdate _ => true
  | .jarr _ => true
  | .jobj _ => true

/-- JS `Map` key equality (SameValueZero) restricted to primitives.  Two
distinct object/array/date references are distinct keys, which a structural
encoding can only under-approximate: object-valued keys compare unequal
here.  The theorems below never depend on object-keyed grouping. -/
def jsSameValueZero : JVal → JVal → Bool
  | .jundef, .jundef => true
  | .jnull, .jnull => true
  | .jbool a, .jbool b => a == b
  | .jnum a, .jnum b => a == b
  | .jstr a, .jstr b => a == b
  | _, _ => false

/-- JS strict equality `===` restricted to primitives (objects compare by
reference, under-approximated as `false`; `jnum` is an `Int`, so the
`NaN`/`-0` exceptions do not arise). -/
def jsStrictEq : JVal → JVal → Bool
  | .jundef, .jundef => true
  | .jnull, .jnull => true
  | .jbool a, .jbool b => a == b
  | .jnum a, .jnum b => a == b
  | .jstr a, .jstr b => a == b
  | _, _ => false

/-- A JS object with string keys, in property-insertion order. -/
abbrev Obj := List (String × JVal)

/-- `o[k]` as an `Option` (`none` = the property is absent). -/
def getProp? (o : Obj) (k : String) : Option JVal :=
  (o.find? (fun p => p.1 == k)).map (·.2)

/-- `o[k]` as JS sees it: an absent property reads as `undefined`. -/
def getProp (o : Obj) (k : String) : JVal :=
  ((getProp? o k).getD .jundef)

/-- `o[k] = v`: overwrite the existing property in place, else append. -/
def setProp (o : Obj) (k : String) (v : JVal) : Obj :=
  match o with
  | [] => [(k, v)]
  | (k', v') :: rest =>
      if k' == k then (k', v) :: rest else (k', v') :: setProp rest k v

/-- `Object.assign(target, source)`: copy every own property of `source`
onto `target`, in order. -/
def objAssign (target source : Obj) : Obj :=
  source.foldl (fun acc p => setProp acc p.1 p.2) target

/-- First-insertion-order key deduplication, as `Map.keys()` iterates. -/
def dedupFirst (l : List String) : List String :=
  l.foldl (fun acc k => if k ∈ acc then acc else acc ++ [k]) []

/-- The error taxonomy of `src/types/errors.ts`, plus `jsTypeError` for
exceptions the JS runtime itself would raise (e.g. spreading a
non-iterable operand). -/
inductive Err where
  | entityMetadataNotFound (entityName : String)
  | columnNotFound (columnName entityName : String)
  | unsupportedQueryOperator (op : String)
  | softDeleteNotSupported (entityName : String)
  | jsTypeError
  deriving DecidableEq

/-- Column types (`src/types/common.ts`, `ColumnType`). -/
inductive ColType where
  | string
  | number
  | boolean
  | date
  | json
  deriving DecidableEq

/-- `ColumnMetadata` from `src/types/common.ts`. -/
structure ColumnMeta where
  propertyKey : String
  columnName : String
  type : ColType
  hidden : Bool := false
  primary : Bool := false
  softDelete : Bool := false

/-- Transform hooks (`TransformHooks`): entity-to-entity functions. -/
structure Hooks where
  beforeSave : Option (Obj → Obj) := none
  afterLoad : Option (Obj → Obj) := none

/-- Relation metadata, flat as produced by `createRelationMetadata`
(`src/core/EntityMetadata.ts`): kind-specific fields are optional and the
`target : () => Function` thunk is resolved by passing the target's
`EntityMeta` to the loader explicitly. -/
structure RelInfo where
  propertyKey : String
  foreignKey : Option String := none
  localKey : Option String := none
  inverseSide : String := ""
  joinTableName : String := ""
  joinColumnName : String := ""
  inverseJoinColumnName : String := ""
  whereExtra : Option Obj := none
  hidden : Bool := false

/-- `EntityMetadata` (`src/types/common.ts`) together with the class name
the repository reads from `this.entityClass.name` for error messages. -/
structure EntityMeta where
  entityName : String
  tableName : String
  softDelete : Bool := false
  softDeleteColumn : Option String := none
  columns : List ColumnMeta := []
  relations : List RelInfo := []
  transformHooks : Hooks := {}

/-- `this._columnMap.get(key)`: the map is built by inserting every column
keyed by `propertyKey`, so a duplicate key keeps the **last** column —
hence the reversed search. -/
def columnMapGet (cols : List ColumnMeta) (k : String) : Option ColumnMeta :=
  cols.reverse.find? (fun c => c.propertyKey == k)

/-- `this._relationMap.get(key)` (same last-set-wins Map semantics). -/
def relationMapGet (rels : List RelInfo) (k : String) : Option RelInfo :=
  rels.reverse.find? (fun r => r.propertyKey == k)

/-- `this._primaryKey = metadata.columns.find(c => c.primary)`. -/
def primaryKeyOf (md : EntityMeta) : Option ColumnMeta :=
  md.columns.find? (fun c => c.primary)

/-- `this._columnMap.keys().toArray()`: property keys in first-insertion
order. -/
def columnMapKeys (cols : List ColumnMeta) : List String :=
  dedupFirst (cols.map (·.propertyKey))

/-- `opt || defaultStr` on an optional string (`''` is falsy). -/
def strOr (o : Option String) (d : String) : String :=
  match o with
  | some s => if s ≠ "" then s else d
  | none => d

/-- Truthiness of `metadata.softDeleteColumn` (an optional string). -/
def optStrTruthy (o : Option String) : Bool :=
  match o with
  | some s => s ≠ ""
  | none => false

/-- The entries of the `operatorQueryMap` record
(`src/types/common.ts` lines 103–117): SQL operator text and the
placeholder-fragment list for each supported `$…` key. -/
def operatorQueryEntries : List (String × (String × Option (List String))) :=
  [("$eq", ("=", some ["?"])),
   ("$ne", ("<>", some ["?"])),
   ("$gt", (">", some ["?"])),
   ("$gte", (">=", some ["?"])),
   ("$lt", ("<", some ["?"])),
   ("$lte", ("<=", some ["?"])),
   ("$in", ("IN", some ["(?)"])),
   ("$like", ("LIKE", some ["?"])),
   ("$between", ("BETWEEN", some ["? ", "AND", " ?"])),
   ("$notBetween", ("NOT BETWEEN", some ["? ", "AND", " ?"])),
   ("$isNull", ("IS NULL", none)),
   ("$exists", ("EXISTS", some ["(?)"])),
   ("$notExists", ("NOT EXISTS", some ["(?)"]))]

/-- `operatorQueryMap[operatorKey]`: the keyed record lookup;
`none` for a key outside the supported set. -/
def operatorQueryMap (op : String) : Option (String × Option (List String)) :=
  (operatorQueryEntries.find? (fun p => p.1 == op)).map (·.2)

/-- `typeof value === 'object' && !Array.isArray(value) && value !== null
? value : { $eq: value }` followed by `Object.keys(...)` enumeration:
plain objects contribute their own fields; a `Date` is an object with no
own enumerable properties, so it contributes **no** operator entries;
everything else (scalars, `null`, `undefined`, arrays) is wrapped as
`{$eq: value}`. -/
def normalizeWhereValue (v : JVal) : List (String × JVal) :=
  match v with
  | .jobj fields => fields
  | .jdate _ => []
  | _ => [("$eq", v)]

/-- The clause text pushed for one operator:
`?? ${operator}${valuePlaceholders ? [' '].concat(valuePlaceholders).join(' ') : ''}`. -/
def operatorFragment (op : String) (ph : Option (List String)) : String :=
  "?? " ++ op ++
    (match ph with
     | some ps => String.intercalate " " (" " :: ps)
     | none => "")

/-- `...whereValue` (JS spread): arrays spread to their elements, strings
spread to their characters, anything else raises a `TypeError`. -/
def spreadValues (v : JVal) : Except Err (List JVal) :=
  match v with
  | .jarr es => .ok es
  | .jstr s => .ok (s.toList.map (fun c => .jstr (String.mk [c])))
  | _ => .error .jsTypeError

/-- The value(s) pushed for one operator: nothing for a zero-placeholder
operator (`$isNull`), the spread of the operand for a multi-placeholder
operator (`$between`), the operand itself otherwise. -/
def operandValues (ph : Option (List String)) (wv : JVal) : Except Err (List JVal) :=
  match ph with
  | none => .ok []
  | some ps => if ps.length > 1 then spreadValues wv else .ok [wv]

/-- The `Object.keys(operatorOrValue).forEach(...)` body of
`renderWhereClauses` for a single resolved column: one fragment per
operator key, pushing the column name and then the operator's
value(s). -/
def renderWhereOps (colName : String) : List (String × JVal) →
    Except Err (List String × List JVal)
  | [] => .ok ([], [])
  | (opKey, wv) :: rest =>
      match operatorQueryMap opKey with
      | none => .error (.unsupportedQueryOperator opKey)
      | some (op, ph) =>
          match operandValues ph wv with
          | .error e => .error e
          | .ok vs =>
              match renderWhereOps colName rest with
              | .error e => .error e
              | .ok (cs, ws) =>
                  .ok (operatorFragment op ph :: cs, (.jstr colName :: vs) ++ ws)

/-- The explicit-keys loop of `renderWhereClauses`
(`src/core/BaseRepository.ts` lines 110–133). -/
def renderWhereList (cols : List ColumnMeta) (entityName : String) :
    Obj → Except Err (List String × List JVal)
  | [] => .ok ([], [])
  | (key, value) :: rest =>
      match columnMapGet cols key with
      | none => .error (.columnNotFound key entityName)
      | some column =>
          match renderWhereOps column.columnName (normalizeWhereValue value) with
          | .error e => .error e
          | .ok (cs, ws) =>
              match renderWhereList cols entityName rest with
              | .error e => .error e
              | .ok (cs', ws') => .ok (cs ++ cs', ws ++ ws')

/-- An `orderBy` descriptor: the array form `['f1', 'f2']` or the object
form `{ f1: 'DESC', f2: 'ASC' }` (direction values are arbitrary JS
values; non-string directions are skipped by the renderer). -/
inductive OrderBy where
  | list (fields : List String)
  | obj (fields : List (String × JVal))

/-- `DeletedFindOptions` plus the query options `find`/`findOne` read. -/
structure FindOpts where
  withDeleted : Bool := false
  select : Option (List String) := none
  orderBy : Option OrderBy := none
  limit : Option Int := none
  offset : Option Int := none

/-- `renderWhereClauses` (`src/core/BaseRepository.ts` lines 106–139):
render the explicit keys, then — unless `withDeleted` — append the
soft-delete `IS NULL` filter when the entity is configured for it. -/
def renderWhereClauses (md : EntityMeta) (w : Obj) (opts : FindOpts) :
    Except Err (List String × List JVal) :=
  match renderWhereList md.columns md.entityName w with
  | .error e => .error e
  | .ok (cs, vs) =>
      if !opts.withDeleted && md.softDelete && optStrTruthy md.softDeleteColumn then
        .ok (cs ++ ["?? IS NULL"], vs ++ [.jstr (md.softDeleteColumn.getD "")])
      else
        .ok (cs, vs)

/-- `renderWhereClaude` (sic): join fragments with `AND` under a leading
keyword (default `WHERE`). -/
def renderWhereClaude (whereClauses : List String) (pfx : String := "WHERE") : String :=
  if whereClauses.length > 0 then
    pfx ++ " " ++ String.intercalate " AND " whereClauses
  else ""

/-- JS `String.prototype.toUpperCase()` (ASCII range), at the
character-list level. -/
def jsToUpperCase (s : String) : String := String.mk (s.data.map Char.toUpper)

/-- The truthy-non-empty-string test on an `orderBy` object direction:
`if (!direction || typeof direction !== 'string') continue;`. -/
def directionString (v : JVal) : Option String :=
  match v with
  | .jstr s => if s ≠ "" then some s else none
  | _ => none

/-- The per-entry loop of `renderOrderByClause`, array form. -/
def renderOrderByList (cols : List ColumnMeta) (entityName : String) :
    List String → Except Err (List String × List JVal)
  | [] => .ok ([], [])
  | field :: rest =>
      match columnMapGet cols field with
      | none => .error (.columnNotFound field entityName)
      | some column =>
          match renderOrderByList cols entityName rest with
          | .error e => .error e
          | .ok (cs, vs) => .ok ("?? ASC" :: cs, .jstr column.columnName :: vs)

/-- The per-entry loop of `renderOrderByClause`, object form.  A falsy or
non-string direction is skipped **before** the column is looked up. -/
def renderOrderByObj (cols : List ColumnMeta) (entityName : String) :
    List (String × JVal) → Except Err (List String × List JVal)
  | [] => .ok ([], [])
  | (field, direction) :: rest =>
      match directionString direction with
      | none => renderOrderByObj cols entityName rest
      | some dir =>
          match columnMapGet cols field with
          | none => .error (.columnNotFound field entityName)
          | some column =>
              match renderOrderByObj cols entityName rest with
              | .error e => .error e
              | .ok (cs, vs) =>
                  .ok (("?? " ++ jsToUpperCase dir) :: cs, .jstr column.columnName :: vs)

/-- `renderOrderByClause` (`src/core/BaseRepository.ts` lines 145–178). -/
def renderOrderByClause (md : EntityMeta) (orderBy : Option OrderBy) :
    Except Err (String × List JVal) :=
  match orderBy with
  | none => .ok ("", [])
  | some ob =>
      let rendered :=
        match ob with
        | .list fields => renderOrderByList md.columns md.entityName fields
        | .obj fields => renderOrderByObj md.columns md.entityName fields
      match rendered with
      | .error e => .error e
      | .ok (cs, vs) =>
          if cs.length > 0 then
            .ok (" ORDER BY " ++ String.intercalate ", " cs, vs)
          else .ok ("", vs)

/-- The `select.map(...)` loop of `renderSelectColumns`: resolve each
entry through `_columnMap` (keyed by `propertyKey`) to its `columnName`,
or throw `ColumnNotFound`. -/
def selectResolve (cols : List ColumnMeta) (entityName : String) :
    List String → Except Err (List String)
  | [] => .ok []
  | field :: rest =>
      match columnMapGet cols field with
      | none => .error (.columnNotFound field entityName)
      | some c =>
          match selectResolve cols entityName rest with
          | .error e => .error e
          | .ok out => .ok (c.columnName :: out)

/-- `renderSelectColumns` (`src/core/BaseRepository.ts` lines 62–82): a
non-empty select list resolves each entry through `_columnMap`, else
throws `ColumnNotFound`; with no (or an empty) select list the
identifiers are `_columnMap.keys()` — the **property keys**.  The
resolved identifiers and then the table name are unshifted onto the
parameter array. -/
def renderSelectColumns (md : EntityMeta) (whereValues : List JVal)
    (select : Option (List String)) : Except Err (String × List JVal) :=
  let colsE : Except Err (List String) :=
    match select with
    | some sel =>
        if sel.length > 0 then selectResolve md.columns md.entityName sel
        else .ok (columnMapKeys md.columns)
    | none => .ok (columnMapKeys md.columns)
  match colsE with
  | .error e => .error e
  | .ok columns =>
      .ok (String.intercalate ", " (columns.map (fun _ => "??")),
        columns.map JVal.jstr ++ .jstr md.tableName :: whereValues)

/-! ## `Date.prototype.toISOString` and the `date` column coercion

`mapToDB` renders a date as
`value.toISOString().slice(0, 19).replace('T', ' ')`.  The ISO string is
modelled concretely at the character-list level: `YYYY-MM-DDTHH:mm:ss` is
computed from `floor(ms / 1000)` and `.sssZ` from the millisecond
remainder, exactly the split `slice(0, 19)` exploits.  (For years outside
0–9999 JS switches to the expanded `±YYYYYY` form, which this model does
not reproduce; the repository only ever formats MySQL-range datetimes.) -/

/-- The low decimal digit of `n`, as a character. -/
def digitChar (n : Nat) : Char := Char.ofNat (48 + n % 10)

/-- Two-digit zero-padded rendering. -/
def pad2 (n : Nat) : List Char := [digitChar (n / 10), digitChar n]

/-- Three-digit zero-padded rendering (milliseconds). -/
def pad3 (n : Nat) : List Char := [digitChar (n / 100), digitChar (n / 10), digitChar n]

/-- Four-digit zero-padded rendering (years). -/
def pad4 (n : Nat) : List Char :=
  [digitChar (n / 1000), digitChar (n / 100), digitChar (n / 10), digitChar n]

/-- Civil date from days since the Unix epoch (standard era-based
algorithm used by JS engines' UTC calendar math). -/
def civilFromDays (z0 : Int) : Int × Nat × Nat :=
  let z := z0 + 719468
  let era := z.fdiv 146097
  let doe := (z - era * 146097).toNat
  let yoe := (doe - doe / 1460 + doe / 36524 - doe / 146096) / 365
  let doy := doe - (365 * yoe + yoe / 4 - yoe / 100)
  let mp := (5 * doy + 2) / 153
  let d := doy - (153 * mp + 2) / 5 + 1
  let m := if mp < 10 then mp + 3 else mp - 9
  let y := (yoe : Int) + era * 400 + (if m ≤ 2 then 1 else 0)
  (y, m, d)

/-- The first 19 characters of the ISO string (`YYYY-MM-DDTHH:mm:ss`),
a function of whole seconds since the epoch. -/
def isoCoreChars (secs : Int) : List Char :=
  let days := secs.fdiv 86400
  let sod := (secs.fmod 86400).toNat
  let ymd := civilFromDays days
  pad4 ymd.1.toNat ++ '-' :: pad2 ymd.2.1 ++ '-' :: pad2 ymd.2.2 ++
    'T' :: pad2 (sod / 3600) ++ ':' :: pad2 (sod % 3600 / 60) ++ ':' :: pad2 (sod % 60)

/-- `Date.prototype.toISOString()` as a character list:
`YYYY-MM-DDTHH:mm:ss` + `.sss` + `Z`. -/
def isoChars (t : Int) : List Char :=
  isoCoreChars (t.fdiv 1000) ++ '.' :: pad3 (t.fmod 1000).toNat ++ ['Z']

/-- `String.prototype.replace(a, b)` with single-character needle:
replaces the first occurrence only. -/
def replaceFirstChar (a b : Char) : List Char → List Char
  | [] => []
  | c :: cs => if c == a then b :: cs else c :: replaceFirstChar a b cs

/-- `value.toISOString().slice(0, 19).replace('T', ' ')` — the `date`
column rendering in `mapToDB`. -/
def jsDateFormat (t : Int) : String :=
  String.mk (replaceFirstChar 'T' ' ' ((isoChars t).take 19))

/-! ## Row mapping (`mapToEntity` / `mapToDB`) -/

/-- Host-environment primitives the mapper calls but does not define.
The ORM's behaviour is proved for every host. -/
structure Host where
  /-- `Number(v)` for a non-number `v`. -/
  numberCoerce : JVal → JVal
  /-- `new Date(v)` for a non-`Date` `v`, as epoch milliseconds. -/
  parseDate : JVal → Int
  /-- `JSON.parse` (`none` models a thrown `SyntaxError`). -/
  jsonParse : String → Option JVal
  /-- `JSON.stringify`. -/
  jsonStringify : JVal → String

/-- The non-null branch of `mapToEntity`'s coercion `switch`. -/
def coerceIn (h : Host) (ty : ColType) (v : JVal) : JVal :=
  match ty with
  | .number => match v with | .jnum n => .jnum n | _ => h.numberCoerce v
  | .boolean => .jbool (jsTruthy v)
  | .date => match v with | .jdate t => .jdate t | _ => .jdate (h.parseDate v)
  | .json =>
      match v with
      | .jstr s => match h.jsonParse s with | some j => j | none => .jstr s
      | _ => v
  | .string => v

/-- `this._columnMap.entries()`: first-insertion key order, last-set
column per key. -/
def columnMapEntries (cols : List ColumnMeta) : List ColumnMeta :=
  (columnMapKeys cols).filterMap (fun k => columnMapGet cols k)

/-- `mapToEntity` (`src/core/BaseRepository.ts` lines 331–366): build a
fresh entity, copy each column's row value (keyed by `columnName`) onto
the entity (keyed by `propertyKey`), coercing non-null values by column
type, then apply the `afterLoad` hook. -/
def mapToEntity (h : Host) (md : EntityMeta) (row : Obj) : Obj :=
  let ent := (columnMapEntries md.columns).foldl
    (fun ent column =>
      let value := getProp row column.columnName
      let value :=
        match value with
        | .jnull => JVal.jnull
        | .jundef => JVal.jundef
        | v => coerceIn h column.type v
      setProp ent column.propertyKey value)
    []
  match md.transformHooks.afterLoad with
  | some f => f ent
  | none => ent

/-- The non-null branch of `mapToDB`'s coercion `switch`.  Calling
`toISOString` on a non-`Date` raises a `TypeError`. -/
def coerceOut (h : Host) (ty : ColType) (v : JVal) : Except Err JVal :=
  match ty with
  | .date => match v with
      | .jdate t => .ok (.jstr (jsDateFormat t))
      | _ => .error .jsTypeError
  | .json => .ok (.jstr (h.jsonStringify v))
  | .boolean => .ok (if jsTruthy v then .jnum 1 else .jnum 0)
  | .number => .ok v
  | .string => .ok v

/-- The value `mapToDB` writes for one column: `null`/`undefined` pass
through unchanged, everything else is outward-coerced by column type. -/
def dbWrite (h : Host) (column : ColumnMeta) : JVal → Except Err JVal
  | .jnull => .ok .jnull
  | .jundef => .ok .jundef
  | v => coerceOut h column.type v

/-- The `for (const [propertyKey, value] of Object.entries(transformed))`
loop of `mapToDB`: properties naming no column are skipped; the rest are
written (outward-coerced) under the column's `columnName`. -/
def mapToDBLoop (h : Host) (md : EntityMeta) :
    List (String × JVal) → Obj → Except Err Obj
  | [], dbObject => .ok dbObject
  | p :: rest, dbObject =>
      match columnMapGet md.columns p.1 with
      | none => mapToDBLoop h md rest dbObject
      | some column =>
          match dbWrite h column p.2 with
          | .error e => .error e
          | .ok dbValue => mapToDBLoop h md rest (setProp dbObject column.columnName dbValue)

/-- `mapToDB` (`src/core/BaseRepository.ts` lines 368–396): apply the
`beforeSave` hook, then write every own property of the result that
names a column. -/
def mapToDB (h : Host) (md : EntityMeta) (entity : Obj) : Except Err Obj :=
  let transformed :=
    match md.transformHooks.beforeSave with
    | some f => f entity
    | none => entity
  mapToDBLoop h md transformed []

/-! ## The connection oracle and `find` / `findOne`

`this.connection.query(sql, params)` is modelled by a pure oracle
`Db`.  Every repository operation returns its result together with the
ordered list of dispatched `(sql, params)` pairs.  The relation-loading
step `find`/`findOne` perform after row mapping (when `options.relations`
is passed) is modelled by the dedicated loader functions below; it runs
strictly after the primary query is dispatched and is immaterial to the
rendering-stage properties proved about `find`/`findOne`. -/

/-- What the connection returns: a row set or a `ResultSetHeader`. -/
inductive DbRes where
  | rows (rs : List Obj)
  | header (affectedRows : Int) (insertId : Int)

/-- The connection capability as a pure oracle. -/
abbrev Db := String → List JVal → DbRes

/-- The ordered list of dispatched queries. -/
abbrev QueryLog := List (String × List JVal)

/-- The ` LIMIT ?` fragment: `options.limit! >= 0` is false when the
option is `undefined`. -/
def limitFragOf (l : Option Int) (kw : String) : String :=
  match l with
  | some n => if n ≥ 0 then " " ++ kw ++ " ?" else ""
  | none => ""

/-- The parameter contributed by a present, non-negative limit/offset. -/
def limitParamOf (l : Option Int) : List JVal :=
  match l with
  | some n => if n ≥ 0 then [.jnum n] else []
  | none => []

/-- `find` (`src/core/BaseRepository.ts` lines 180–212) up to relation
loading: render where / select / order-by, dispatch a single SELECT, map
rows.  A non-array (header) response yields `[]`. -/
def find (h : Host) (md : EntityMeta) (db : Db) (w : Obj) (opts : FindOpts) :
    Except Err (List Obj) × QueryLog :=
  match renderWhereClauses md w opts with
  | .error e => (.error e, [])
  | .ok (whereClauses, whereValues0) =>
    let whereClause := renderWhereClaude whereClauses
    match renderSelectColumns md whereValues0 opts.select with
    | .error e => (.error e, [])
    | .ok (selectColumns, whereValues) =>
      match renderOrderByClause md opts.orderBy with
      | .error e => (.error e, [])
      | .ok (orderByClause, orderValues) =>
        let finalParams := whereValues ++ orderValues ++
          limitParamOf opts.limit ++ limitParamOf opts.offset
        let sql := "SELECT " ++ (selectColumns ++ (" FROM ?? " ++ (whereClause ++
          (orderByClause ++ (limitFragOf opts.limit "LIMIT" ++ limitFragOf opts.offset "OFFSET")))))
        ((match db sql finalParams with
          | .rows rs => .ok (rs.map (mapToEntity h md))
          | .header _ _ => .ok []),
         [(sql, finalParams)])

/-- `findOne` (`src/core/BaseRepository.ts` lines 84–104) up to relation
loading: same pipeline with a hard `LIMIT 1`; `null` when no row
matches. -/
def findOne (h : Host) (md : EntityMeta) (db : Db) (w : Obj) (opts : FindOpts) :
    Except Err (Option Obj) × QueryLog :=
  match renderWhereClauses md w opts with
  | .error e => (.error e, [])
  | .ok (whereClauses, whereValues0) =>
    let whereClause := renderWhereClaude whereClauses
    match renderSelectColumns md whereValues0 opts.select with
    | .error e => (.error e, [])
    | .ok (selectColumns, whereValues) =>
      match renderOrderByClause md opts.orderBy with
      | .error e => (.error e, [])
      | .ok (orderByClause, orderValues) =>
        let finalParams := whereValues ++ orderValues
        let sql := "SELECT " ++ (selectColumns ++ (" FROM ?? " ++ (whereClause ++
          (orderByClause ++ " LIMIT 1"))))
        ((match db sql finalParams with
          | .rows (r :: _) => .ok (some (mapToEntity h md r))
          | .rows [] => .ok none
          | .header _ _ => .ok none),
         [(sql, finalParams)])

/-! ## `update` and `delete` -/

/-- The first argument of `update`/`delete`: a plain where-descriptor, or
a live instance of the entity class (`where instanceof this.entityClass`). -/
inductive WhereOrEntity where
  | whereClause (w : Obj)
  | entity (e : Obj)

/-- The key of `{ [this._metadata.softDeleteColumn!]: new Date() }`: an
`undefined` computed key is coerced to the string `"undefined"`. -/
def softDeleteKey (o : Option String) : String :=
  match o with
  | some s => s
  | none => "undefined"

/-- `where instanceof this.entityClass`. -/
def WhereOrEntity.isInstance : WhereOrEntity → Bool
  | .entity _ => true
  | .whereClause _ => false

/-- The entity captured by `update` before narrowing (`{}` when the
argument is a plain filter). -/
def WhereOrEntity.entityOf : WhereOrEntity → Obj
  | .entity e => e
  | .whereClause _ => []

/-- The narrowing step of `update`: a live instance with a configured
primary key turns the filter into `{pk: instance[pk]}` and defaults the
payload to the instance itself. -/
def updateNarrow (md : EntityMeta) (whereOrE : WhereOrEntity) (updates : Option Obj) :
    Obj × Option Obj :=
  match whereOrE with
  | .entity e =>
      match primaryKeyOf md with
      | some pkc =>
          ([(pkc.propertyKey, getProp e pkc.propertyKey)], some (updates.getD e))
      | none => (e, updates)
  | .whereClause w0 => (w0, updates)

/-- `update` (`src/core/BaseRepository.ts` lines 245–281).  A live
instance with a configured primary key narrows the filter to
`{pk: instance[pk]}` and defaults the payload to the instance itself;
the payload is `mapToDB`-rendered into `SET` clauses; one UPDATE is
dispatched; when exactly one row was affected and the input was an
instance, the row is re-fetched via `findOne` and merged
(`Object.assign`) into the instance. -/
def update (h : Host) (md : EntityMeta) (db : Db) (whereOrE : WhereOrEntity)
    (updates : Option Obj) (opts : FindOpts) : Except Err JVal × QueryLog :=
  let w := (updateNarrow md whereOrE updates).1
  match (match (updateNarrow md whereOrE updates).2 with
         | some u => mapToDB h md u
         -- `Object.entries(undefined)` raises a `TypeError`
         | none => Except.error Err.jsTypeError) with
  | .error e => (.error e, [])
  | .ok updateDbObject =>
    let setClauses := updateDbObject.map (fun _ => "?? = ?")
    let setValues := updateDbObject.foldr (fun p acc => JVal.jstr p.1 :: p.2 :: acc) []
    match renderWhereClauses md w opts with
    | .error e => (.error e, [])
    | .ok (whereClauses, whereValues) =>
      let sql := "UPDATE ?? SET " ++ (String.intercalate ", " setClauses ++ (" " ++
        renderWhereClaude whereClauses))
      let params := JVal.jstr md.tableName :: (setValues ++ whereValues)
      let aff : JVal := match db sql params with
        | .header a _ => .jnum a
        | .rows _ => .jundef
      if jsStrictEq aff (.jnum 1) && whereOrE.isInstance then
        ((match (findOne h md db w opts).1 with
          | .error e => .error e
          | .ok (some updatedEntity) =>
              .ok (.jobj (objAssign whereOrE.entityOf updatedEntity))
          | .ok none => .ok aff),
         (sql, params) :: (findOne h md db w opts).2)
      else
        (.ok aff, [(sql, params)])

/-- `delete` (`src/core/BaseRepository.ts` lines 283–306).  With soft
delete enabled it delegates to `update`, setting the soft-delete column
to `new Date()` under `withDeleted: true`; otherwise it narrows a live
instance to its primary key, dispatches one DELETE and returns the
affected-row count. -/
def del (h : Host) (md : EntityMeta) (db : Db) (now : Int)
    (whereOrE : WhereOrEntity) : Except Err JVal × QueryLog :=
  if md.softDelete then
    update h md db whereOrE
      (some [(softDeleteKey md.softDeleteColumn, .jdate now)]) { withDeleted := true }
  else
    let w :=
      match whereOrE with
      | .entity e =>
          match primaryKeyOf md with
          | some pkc => [(pkc.propertyKey, getProp e pkc.propertyKey)]
          | none => e
      | .whereClause w0 => w0
    match renderWhereClauses md w {} with
    | .error e => (.error e, [])
    | .ok (whereClauses, whereValues) =>
      let sql := "DELETE FROM ?? " ++ renderWhereClaude whereClauses
      let params := JVal.jstr md.tableName :: whereValues
      (.ok (match db sql params with
            | .header a _ => .jnum a
            | .rows _ => .jundef),
       [(sql, params)])

/-! ## The metadata store and the repository constructor -/

/-- The process-wide `metadataStore`, keyed by entity-class identity
(classes are identified by name here). -/
abbrev MetaStore := List (String × EntityMeta)

/-- `getEntityMetadata` (`src/core/EntityMetadata.ts` lines 5–22): return
the registered descriptor, or lazily create, save and return an
empty-shell default (`tableName: ''`, no columns/relations/hooks).
`entityName` is the Lean-side carrier of the class name
(`this.entityClass.name`). -/
def getEntityMetadata (store : MetaStore) (target : String) : EntityMeta × MetaStore :=
  match store.find? (fun p => p.1 == target) with
  | some p => (p.2, store)
  | none =>
      let m : EntityMeta := { entityName := target, tableName := "" }
      (m, (target, m) :: store)

/-- The `BaseRepository` constructor (`src/core/BaseRepository.ts` lines
37–49): fetch the metadata and guard `if (!metadata) throw new
EntityMetadataNotFoundError(...)`.  The guard is unreachable:
`getEntityMetadata` always returns a (truthy) descriptor object, creating
an empty shell on demand. -/
def constructRepo (store : MetaStore) (target : String) :
    Except Err EntityMeta × MetaStore :=
  let r := getEntityMetadata store target
  (.ok r.1, r.2)

/-! ## Relation loaders (`loadOneToMany`, `loadManyToMany`)

The `relation.target()` thunk is resolved by passing the target entity's
metadata (`tmd`) explicitly: constructing the nested `BaseRepository`
reads exactly that descriptor.  JS `Map`s keyed by row values are
association lists under `jsSameValueZero`. -/

/-- `map.has(k)`. -/
def mapHas (m : List (JVal × List Obj)) (k : JVal) : Bool :=
  m.any (fun p => jsSameValueZero p.1 k)

/-- `map.get(k)`. -/
def mapGet (m : List (JVal × List Obj)) (k : JVal) : Option (List Obj) :=
  (m.find? (fun p => jsSameValueZero p.1 k)).map (·.2)

/-- `map.set(k, v)`. -/
def mapSet (m : List (JVal × List Obj)) (k : JVal) (v : List Obj) :
    List (JVal × List Obj) :=
  match m with
  | [] => [(k, v)]
  | (k', v') :: rest =>
      if jsSameValueZero k' k then (k', v) :: rest else (k', v') :: mapSet rest k v

/-- `map.get(k)!.push(x)` (the entry is known to exist). -/
def mapPush (m : List (JVal × List Obj)) (k : JVal) (x : Obj) :
    List (JVal × List Obj) :=
  m.map (fun p => if jsSameValueZero p.1 k then (p.1, p.2 ++ [x]) else p)

/-- The per-relation configuration a complex relation spec passes to a
loader (`RelationConfig`). -/
structure RelCfg where
  limit : Option Int := none
  offset : Option Int := none
  orderBy : Option OrderBy := none
  select : Option (List String) := none

/-- `buildFindOptions` (`src/core/BaseRepository.ts` lines 500–507):
copy each option when truthy (`limit: 0` and `offset: 0` are falsy and
dropped; a present `orderBy`/`select` object is always truthy). -/
def buildFindOptions (cfg : Option RelCfg) : FindOpts :=
  match cfg with
  | none => {}
  | some c =>
      { limit := match c.limit with
          | some l => if l != 0 then some l else none
          | none => none
        offset := match c.offset with
          | some l => if l != 0 then some l else none
          | none => none
        orderBy := c.orderBy
        select := c.select }

/-- `loadOneToMany` (`src/core/BaseRepository.ts` lines 538–574).
Returns the (possibly updated) parent entities plus the dispatched
queries.  Early returns: no parent primary key, or unresolvable
`inverseSide` — the parents are left untouched. -/
def loadOneToMany (h : Host) (md : EntityMeta) (rel : RelInfo) (tmd : EntityMeta)
    (db : Db) (entities : List Obj) (cfg : Option RelCfg) :
    Except Err (List Obj) × QueryLog :=
  match primaryKeyOf md with
  | none => (.ok entities, [])
  | some pk =>
    match relationMapGet tmd.relations rel.inverseSide with
    | none => (.ok entities, [])
    | some inverseRelation =>
      let foreignKey := strOr inverseRelation.foreignKey (md.tableName ++ "_id")
      let ids := entities.map (fun e => getProp e pk.propertyKey)
      let whereClause :=
        objAssign [(foreignKey, .jobj [("$in", .jarr ids)])] (rel.whereExtra.getD [])
      match find h tmd db whereClause (buildFindOptions cfg) with
      | (.error e, log) => (.error e, log)
      | (.ok relatedEntities, log) =>
        let m0 := entities.foldl
          (fun m e => mapSet m (getProp e pk.propertyKey) []) []
        let m := relatedEntities.foldl
          (fun m re =>
            let fkValue := getProp re foreignKey
            if mapHas m fkValue then mapPush m fkValue re else m)
          m0
        let out := entities.map (fun e =>
          setProp e rel.propertyKey
            (.jarr (((mapGet m (getProp e pk.propertyKey)).getD []).map .jobj)))
        (.ok out, log)

/-- `coreOptions.sourceEntityIdAlias` default (`src/config/db.ts`). -/
def sourceEntityIdAlias : String := "_orm_source_fk_"

/-- The base join query of `loadManyToMany` and its identifier/value
parameters (aliases `t` and `jt`). -/
def m2mBaseQuery (rel : RelInfo) (tmd : EntityMeta) (tpk : ColumnMeta)
    (ids : List JVal) : String × List JVal :=
  ("SELECT DISTINCT ??.*, ??.?? AS ?? FROM ?? ?? JOIN ?? ?? ON ??.?? = ??.?? WHERE ??.?? IN (?)",
   [.jstr "t", .jstr "jt", .jstr rel.joinColumnName, .jstr sourceEntityIdAlias,
    .jstr tmd.tableName, .jstr "t", .jstr rel.joinTableName, .jstr "jt",
    .jstr "jt", .jstr rel.inverseJoinColumnName, .jstr "t", .jstr tpk.columnName,
    .jstr "jt", .jstr rel.joinColumnName, .jarr ids])

/-- The optional `relation.where` AND-clause of `loadManyToMany`,
rendered against the target repository. -/
def m2mQueryWithWhere (rel : RelInfo) (tmd : EntityMeta) (tpk : ColumnMeta)
    (ids : List JVal) : Except Err (String × List JVal) :=
  match rel.whereExtra with
  | none => .ok (m2mBaseQuery rel tmd tpk ids)
  | some w =>
      match renderWhereClauses tmd w {} with
      | .error e => .error e
      | .ok (wcs, wvs) =>
          if wcs.length > 0 then
            .ok ((m2mBaseQuery rel tmd tpk ids).1 ++ " " ++ renderWhereClaude wcs "AND",
                 (m2mBaseQuery rel tmd tpk ids).2 ++ wvs)
          else .ok (m2mBaseQuery rel tmd tpk ids)

/-- The optional ` LIMIT ?` suffix of `loadManyToMany`
(`if (options?.limit)` — `0` is falsy). -/
def m2mQueryWithLimit (cfg : Option RelCfg) (sp : String × List JVal) :
    String × List JVal :=
  match cfg with
  | some c =>
      match c.limit with
      | some l => if l != 0 then (sp.1 ++ " LIMIT ?", sp.2 ++ [JVal.jnum l]) else sp
      | none => sp
  | none => sp

/-- `loadManyToMany` (`src/core/BaseRepository.ts` lines 606–679).
Early returns (parents untouched): no parent primary key, no target
primary key, or an empty parent batch.  One join query is dispatched;
rows are mapped to target entities, grouped by the aliased source key,
deduplicated by target primary key, and every parent is assigned its
(possibly empty) group. -/
def loadManyToMany (h : Host) (md : EntityMeta) (rel : RelInfo) (tmd : EntityMeta)
    (db : Db) (entities : List Obj) (cfg : Option RelCfg) :
    Except Err (List Obj) × QueryLog :=
  match primaryKeyOf md with
  | none => (.ok entities, [])
  | some cpk =>
    match primaryKeyOf tmd with
    | none => (.ok entities, [])
    | some tpk =>
      let ids := entities.map (fun e => getProp e cpk.propertyKey)
      if ids.length == 0 then (.ok entities, [])
      else
        match m2mQueryWithWhere rel tmd tpk ids with
        | .error e => (.error e, [])
        | .ok sp1 =>
          let sql2 := (m2mQueryWithLimit cfg sp1).1
          let params2 := (m2mQueryWithLimit cfg sp1).2
          match db sql2 params2 with
          -- `for (const row of relatedEntitiesRaw)` over a non-array
          -- (ResultSetHeader) would raise a `TypeError`
          | .header _ _ => (.error .jsTypeError, [(sql2, params2)])
          | .rows rowsRaw =>
            let m0 := entities.foldl
              (fun m e => mapSet m (getProp e cpk.propertyKey) []) []
            let m := rowsRaw.foldl
              (fun m row =>
                let sourceFk := getProp row sourceEntityIdAlias
                let targetEntity := mapToEntity h tmd row
                if mapHas m sourceFk then
                  let existing := (mapGet m sourceFk).getD []
                  if existing.any (fun ex =>
                      jsStrictEq (getProp ex tpk.propertyKey)
                        (getProp targetEntity tpk.propertyKey)) then m
                  else mapPush m sourceFk targetEntity
                else m)
              m0
            let out := entities.map (fun e =>
              setProp e rel.propertyKey
                (.jarr (((mapGet m (getProp e cpk.propertyKey)).getD []).map .jobj)))
            (.ok out, [(sql2, params2)])

/-! ## Specification-side definitions

These are written from the specification's words, to be compared with the
code-derived definitions above. -/

/-- A row value is *well-formed for the declared column type* (the
hypothesis of the round-trip claim).  `null` is well-formed for every
type; a `boolean` cell may hold a JS boolean or a MySQL `0`/`1`; a
`json` cell holds a string that parses to a proper (non-null,
non-undefined) document. -/
def wfValue (h : Host) (ty : ColType) (v : JVal) : Prop :=
  v = .jnull ∨
  match ty with
  | .string => ∃ s, v = .jstr s
  | .number => ∃ n, v = .jnum n
  | .boolean => v = .jbool true ∨ v = .jbool false ∨ v = .jnum 0 ∨ v = .jnum 1
  | .date => ∃ t, v = .jdate t
  | .json => ∃ s j, v = .jstr s ∧ h.jsonParse s = some j ∧ j ≠ .jnull ∧ (j ≠ .jundef)

/-- The documented lossy coercions of the round-trip claim: booleans
become `0`/`1` integers, dates become the formatted timestamp string,
json strings round-trip through parse/stringify; every other well-formed
value is reproduced exactly. -/
def documentedCoercion (h : Host) (ty : ColType) (v : JVal) : JVal :=
  match v with
  | .jnull => .jnull
  | v =>
      match ty with
      | .boolean =>
          match v with
          | .jbool b => if b then .jnum 1 else .jnum 0
          | v => v
      | .date =>
          match v with
          | .jdate t => .jstr (jsDateFormat t)
          | v => v
      | .json =>
          match v with
          | .jstr s =>
              match h.jsonParse s with
              | some j => .jstr (h.jsonStringify j)
              | none => .jstr s
          | v => v
      | _ => v

/-- A bare scalar or `null` where-operand (the inputs the normalization
claim says are treated as `{$eq: value}`). -/
def scalarOrNull (v : JVal) : Prop :=
  (∃ s, v = .jstr s) ∨ (∃ n, v = .jnum n) ∨ (∃ b, v = .jbool b) ∨ v = .jnull

/-- The fragment rendered for a supported operator key (`""` for an
unsupported one; always used under a supportedness hypothesis). -/
def fragOf (opKey : String) : String :=
  match operatorQueryMap opKey with
  | some (op, ph) => operatorFragment op ph
  | none => ""

/-- Every operator key of an operator-shaped object is supported. -/
def fieldsSupported (fields : List (String × JVal)) : Prop :=
  ∀ q ∈ fields, (operatorQueryMap q.1).isSome

/-- Multi-placeholder operators (`$between`/`$notBetween`) carry a
spreadable (array or string) operand, so no `TypeError` interferes. -/
def fieldsSpreadSafe (fields : List (String × JVal)) : Prop :=
  ∀ q ∈ fields, ∀ op ps, operatorQueryMap q.1 = some (op, some ps) →
    ps.length > 1 → (∃ es, q.2 = .jarr es) ∨ (∃ s, q.2 = .jstr s)

/-- Every operand of the where-descriptor is spread-safe. -/
def spreadSafe (w : Obj) : Prop :=
  ∀ p ∈ w, fieldsSpreadSafe (normalizeWhereValue p.2)

/-- The where-descriptor references a column absent from the column map,
or an operator outside the supported set. -/
def badWhereRef (md : EntityMeta) (w : Obj) : Prop :=
  ∃ p ∈ w, columnMapGet md.columns p.1 = none ∨
    ∃ q ∈ normalizeWhereValue p.2, operatorQueryMap q.1 = none

/-- A non-empty select list references a column absent from the column
map. -/
def badSelectRef (md : EntityMeta) (sel : Option (List String)) : Prop :=
  ∃ l, sel = some l ∧ l ≠ [] ∧ ∃ f ∈ l, columnMapGet md.columns f = none

/-- The order-by descriptor references (with a direction that survives
the skip test, in object form) a column absent from the column map. -/
def badOrderRef (md : EntityMeta) (ob : Option OrderBy) : Prop :=
  (∃ fs, ob = some (.list fs) ∧ ∃ f ∈ fs, columnMapGet md.columns f = none) ∨
  (∃ fs, ob = some (.obj fs) ∧
    ∃ p ∈ fs, (directionString p.2).isSome ∧ columnMapGet md.columns p.1 = none)

/-- The validation errors of the claim: `ColumnNotFound` or
`UnsupportedQueryOperator`. -/
def isValidationErr : Err → Prop
  | .columnNotFound _ _ => True
  | .unsupportedQueryOperator _ => True
  | _ => False

/-- The parent's relation property holds an array value. -/
def propHoldsArray (e : Obj) (k : String) : Prop :=
  ∃ es, getProp? e k = some (.jarr es)

/-! ## Concrete fixtures (for witnesses and counterexamples) -/

/-- A trivial host instantiation. -/
def hostD : Host :=
  { numberCoerce := fun _ => .jnum 0
    parseDate := fun _ => 0
    jsonParse := fun _ => some (.jobj [])
    jsonStringify := fun _ => "{}" }

/-- A one-string-column entity `E` (column `a`). -/
def mdE : EntityMeta :=
  { entityName := "E", tableName := "e"
    columns := [{ propertyKey := "a", columnName := "a", type := .string }] }

/-- A soft-delete entity: primary key `id`, soft-delete column
`deletedAt` (property key = column name). -/
def mdS : EntityMeta :=
  { entityName := "S", tableName := "s"
    softDelete := true, softDeleteColumn := some "deletedAt"
    columns :=
      [{ propertyKey := "id", columnName := "id", type := .number, primary := true },
       { propertyKey := "deletedAt", columnName := "deletedAt", type := .date,
         softDelete := true }] }

/-- A hard-delete entity with a primary key. -/
def mdH : EntityMeta :=
  { entityName := "H", tableName := "h"
    columns := [{ propertyKey := "id", columnName := "id", type := .number,
                  primary := true }] }

/-- The repository's own test entity `User`: property `createdAt` is
stored in column `created_at`. -/
def mdUser : EntityMeta :=
  { entityName := "User", tableName := "test_users"
    columns :=
      [{ propertyKey := "id", columnName := "id", type := .number, primary := true },
       { propertyKey := "createdAt", columnName := "created_at", type := .date }] }

/-- A parent entity type with **no** primary-key column. -/
def mdNoPk : EntityMeta :=
  { entityName := "P", tableName := "p"
    columns := [{ propertyKey := "id", columnName := "id", type := .number }] }

/-- A parent entity type with a primary key (for the positive relation
loads). -/
def mdP : EntityMeta :=
  { entityName := "P", tableName := "p"
    columns := [{ propertyKey := "id", columnName := "id", type := .number,
                  primary := true }] }

/-- The `posts` OneToMany relation, inverse side `user`. -/
def relPosts : RelInfo := { propertyKey := "posts", inverseSide := "user" }

/-- The target (child) entity: foreign-key column `user_id`, carrying
the inverse `user` relation. -/
def mdT : EntityMeta :=
  { entityName := "C", tableName := "c"
    columns :=
      [{ propertyKey := "id", columnName := "id", type := .number, primary := true },
       { propertyKey := "user_id", columnName := "user_id", type := .number }]
    relations := [{ propertyKey := "user", foreignKey := some "user_id" }] }

/-- A ManyToMany relation fixture. -/
def relTags : RelInfo :=
  { propertyKey := "tags", joinTableName := "p_t", joinColumnName := "p_id",
    inverseJoinColumnName := "t_id" }

/-- A five-column entity covering every column type (for the round-trip
witness). -/
def mdW : EntityMeta :=
  { entityName := "W", tableName := "w"
    columns :=
      [{ propertyKey := "s", columnName := "s", type := .string },
       { propertyKey := "n", columnName := "n", type := .number },
       { propertyKey := "b", columnName := "b", type := .boolean },
       { propertyKey := "d", columnName := "d", type := .date },
       { propertyKey := "j", columnName := "j", type := .json }] }

/-- A well-formed row for `mdW`. -/
def rowW : Obj :=
  [("s", .jstr "x"), ("n", .jnum 5), ("b", .jnum 1),
   ("d", .jdate 1000), ("j", .jstr "{}")]

/-- A connection oracle returning an empty row set. -/
def dbEmpty : Db := fun _ _ => .rows []

/-- A connection oracle returning a one-row header. -/
def dbHeader : Db := fun _ _ => .header 1 0

/-! ## Helper lemmas -/

theorem opMap_eq_eval : operatorQueryMap "$eq" = some ("=", some ["?"]) := rfl

theorem opMap_isNull_eval : operatorQueryMap "$isNull" = some ("IS NULL", none) := rfl

theorem optStrTruthy_some {c : String} (h : c ≠ "") :
    optStrTruthy (some c) = true := by
  simp [optStrTruthy, h]

/-- Looking up the key just set always succeeds with the new value. -/
theorem getProp?_setProp (o : Obj) (k : String) (v : JVal) :
    getProp? (setProp o k v) k = some v := by
  induction o with
  | nil => simp [setProp, getProp?]
  | cons p rest ih =>
      obtain ⟨k', v'⟩ := p
      by_cases hk : k' == k
      · simp [setProp, hk, getProp?, List.find?]
      · simp only [setProp, hk]
        simpa [getProp?, List.find?, hk] using ih

/-! ## Claim C2: the soft-delete `IS NULL` filter -/

/-- **C2.** For an entity configured for soft delete
(`softDelete` with a truthy `softDeleteColumn`), rendering a where
descriptor without `withDeleted: true` appends exactly one `?? IS NULL`
fragment on the soft-delete column after all fragments of the explicit
keys (and its column name after their parameters); with
`withDeleted: true`, or for an entity without soft-delete configuration,
the rendering is exactly the explicit-keys rendering. -/
theorem c2_soft_delete_filter (md : EntityMeta) (c : String) (w : Obj) (opts : FindOpts) :
    (md.softDelete = true → md.softDeleteColumn = some c → c ≠ "" →
      ((opts.withDeleted = false →
        renderWhereClauses md w opts =
          (renderWhereList md.columns md.entityName w).map
            (fun p => (p.1 ++ ["?? IS NULL"], p.2 ++ [JVal.jstr c])))
       ∧ (opts.withDeleted = true →
        renderWhereClauses md w opts = renderWhereList md.columns md.entityName w)))
    ∧ ((md.softDelete = false ∨ md.softDeleteColumn = none) →
        renderWhereClauses md w opts = renderWhereList md.columns md.entityName w) := by
  constructor
  · intro hsd hcol hne
    constructor
    · intro hwd
      unfold renderWhereClauses
      cases hrl : renderWhereList md.columns md.entityName w with
      | error e => simp [Except.map]
      | ok p =>
          obtain ⟨cs, vs⟩ := p
          simp [hsd, hcol, hwd, optStrTruthy_some hne, Except.map]
    · intro hwd
      unfold renderWhereClauses
      cases hrl : renderWhereList md.columns md.entityName w with
      | error e => rfl
      | ok p => obtain ⟨cs, vs⟩ := p; simp [hwd]
  · intro hcfg
    unfold renderWhereClauses
    cases hrl : renderWhereList md.columns md.entityName w with
    | error e => rfl
    | ok p =>
        obtain ⟨cs, vs⟩ := p
        rcases hcfg with h | h
        · simp [h]
        · simp [h, optStrTruthy]

/-- **C2 witness**: a soft-delete entity with one explicit key. -/
theorem c2_soft_delete_filter_witness :
    renderWhereClauses mdS [("id", JVal.jnum 1)] {} =
      (renderWhereList mdS.columns mdS.entityName [("id", JVal.jnum 1)]).map
        (fun p => (p.1 ++ ["?? IS NULL"], p.2 ++ [JVal.jstr "deletedAt"])) :=
  ((c2_soft_delete_filter mdS "deletedAt" [("id", JVal.jnum 1)] {}).1
    rfl rfl (by decide)).1 rfl

/-! ## Claim C10: `$isNull` discards its operand -/

/-- **C10.** For a resolvable column, `{col: {$isNull: v}}` renders the
single fragment `?? IS NULL` with only the column name as parameter, for
every operand `v` — so any two operands produce identical SQL and
parameters — and no supported operator ever renders an `IS NOT NULL`
form. -/
theorem c10_isNull_discards_operand (md : EntityMeta) (k : String) (col : ColumnMeta)
    (v v' : JVal) (opts : FindOpts) (hcol : columnMapGet md.columns k = some col) :
    renderWhereList md.columns md.entityName [(k, .jobj [("$isNull", v)])]
      = .ok (["?? IS NULL"], [.jstr col.columnName])
    ∧ renderWhereClauses md [(k, .jobj [("$isNull", v)])] opts
      = renderWhereClauses md [(k, .jobj [("$isNull", v')])] opts
    ∧ (∀ op sqlOp ph, operatorQueryMap op = some (sqlOp, ph) → sqlOp ≠ "IS NOT NULL") := by
  have hops : ∀ (cn : String) (u : JVal),
      renderWhereOps cn [("$isNull", u)] = .ok (["?? IS NULL"], [.jstr cn]) :=
    fun cn u => rfl
  have hlist : ∀ u : JVal,
      renderWhereList md.columns md.entityName [(k, .jobj [("$isNull", u)])]
        = .ok (["?? IS NULL"], [.jstr col.columnName]) := by
    intro u
    simp only [renderWhereList, normalizeWhereValue, hcol, hops, List.append_nil]
  refine ⟨hlist v, ?_, ?_⟩
  · unfold renderWhereClauses
    rw [hlist v, hlist v']
  · intro op sqlOp ph hm
    unfold operatorQueryMap at hm
    rcases Option.map_eq_some'.mp hm with ⟨entry, hfind, hval⟩
    have hmem := List.mem_of_find?_eq_some hfind
    have hall : ∀ x ∈ operatorQueryEntries, x.2.1 ≠ "IS NOT NULL" := by decide
    intro hbad
    exact hall entry hmem (by rw [hval, hbad])

/-- **C10 witness**: `{$isNull: false}` and `{$isNull: true}` render
identically on the fixture entity. -/
theorem c10_isNull_discards_operand_witness :
    renderWhereClauses mdE [("a", JVal.jobj [("$isNull", JVal.jbool false)])] {}
      = renderWhereClauses mdE [("a", JVal.jobj [("$isNull", JVal.jbool true)])] {} :=
  (c10_isNull_discards_operand mdE "a"
    { propertyKey := "a", columnName := "a", type := .string }
    (JVal.jbool false) (JVal.jbool true) {} rfl).2.1

/-! ## Claim C9: repository construction for unregistered entities -/

/-- **C9 counterexample.** Constructing a repository for an entity type
with no registered descriptor does **not** raise
`EntityMetadataNotFound`: with an empty store the constructor succeeds
with the lazily created empty-shell descriptor. -/
theorem c9_counterexample :
    (constructRepo ([] : MetaStore) "User").1
      = .ok { entityName := "User", tableName := "" }
    ∧ (constructRepo ([] : MetaStore) "User").1
      ≠ .error (.entityMetadataNotFound "User") := by
  refine ⟨rfl, ?_⟩
  intro h
  exact Except.noConfusion h

/-- **C9 amended.** Constructing a repository for an unregistered entity
type raises nothing: `getEntityMetadata` lazily installs an empty-shell
descriptor (empty table name, no columns or relations), making the
constructor's `EntityMetadataNotFound` guard unreachable; queries against
the shell then fail validation (`ColumnNotFound` for any where key)
instead. -/
theorem c9_amended (store : MetaStore) (target : String)
    (hunreg : store.find? (fun p => p.1 == target) = none) :
    constructRepo store target =
      (.ok { entityName := target, tableName := "" },
       (target, { entityName := target, tableName := "" }) :: store)
    ∧ ∀ (k : String) (v : JVal) (opts : FindOpts),
        renderWhereClauses { entityName := target, tableName := "" } [(k, v)] opts
          = .error (.columnNotFound k target) := by
  constructor
  · unfold constructRepo getEntityMetadata
    rw [hunreg]
  · intro k v opts
    rfl

/-- **C9 witness**: the amended behaviour at the empty store. -/
theorem c9_amended_witness :
    constructRepo ([] : MetaStore) "User" =
      (.ok { entityName := "User", tableName := "" },
       [("User", { entityName := "User", tableName := "" })])
    ∧ renderWhereClauses { entityName := "User", tableName := "" }
        [("x", JVal.jnull)] {} = .error (.columnNotFound "x" "User") :=
  ⟨(c9_amended [] "User" rfl).1, (c9_amended [] "User" rfl).2 "x" .jnull {}⟩

/-! ## Claim C8: order-by rendering -/

/-- **C8 counterexample.** An unrecognized (but string) direction is
**not** skipped: `{a: 'sideways'}` renders ` ORDER BY ?? SIDEWAYS`
(uppercased verbatim) rather than contributing no term. -/
theorem c8_counterexample :
    renderOrderByClause mdE (some (.obj [("a", JVal.jstr "sideways")]))
      = .ok (" ORDER BY ?? SIDEWAYS", [JVal.jstr "a"])
    ∧ renderOrderByClause mdE (some (.obj [("a", JVal.jstr "sideways")]))
      ≠ .ok ("", []) := by
  refine ⟨rfl, ?_⟩
  intro h
  rw [show renderOrderByClause mdE (some (.obj [("a", JVal.jstr "sideways")]))
        = .ok (" ORDER BY ?? SIDEWAYS", [JVal.jstr "a"]) from rfl] at h
  simp only [Except.ok.injEq, Prod.mk.injEq] at h
  exact absurd h.1 (by decide)

/-- **C8 amended.** In `renderOrderByClause`'s object form an entry is
skipped iff its direction is falsy or not a string — the skip happens
before column validation, so such entries are never checked; any
*string* direction (recognized or not) is uppercased and rendered; a
rendered field that does not resolve via `columnMap` raises
`ColumnNotFound`; the list form always renders ascending; caller order
is preserved (entries prepend in order). -/
theorem c8_amended (cols : List ColumnMeta) (n field : String) (direction : JVal)
    (col : ColumnMeta) (rest : List (String × JVal)) (restL : List String) :
    (directionString direction = none →
      renderOrderByObj cols n ((field, direction) :: rest)
        = renderOrderByObj cols n rest)
    ∧ (∀ dir, directionString direction = some dir →
        columnMapGet cols field = some col →
        renderOrderByObj cols n ((field, direction) :: rest)
          = (renderOrderByObj cols n rest).map
              (fun p => (("?? " ++ jsToUpperCase dir) :: p.1,
                         JVal.jstr col.columnName :: p.2)))
    ∧ (∀ dir, directionString direction = some dir →
        columnMapGet cols field = none →
        renderOrderByObj cols n ((field, direction) :: rest)
          = .error (.columnNotFound field n))
    ∧ (columnMapGet cols field = some col →
        renderOrderByList cols n (field :: restL)
          = (renderOrderByList cols n restL).map
              (fun p => ("?? ASC" :: p.1, JVal.jstr col.columnName :: p.2)))
    ∧ (columnMapGet cols field = none →
        renderOrderByList cols n (field :: restL)
          = .error (.columnNotFound field n)) := by
  refine ⟨?_, ?_, ?_, ?_, ?_⟩
  · intro hskip
    simp only [renderOrderByObj, hskip]
  · intro dir hdir hcol
    simp only [renderOrderByObj, hdir, hcol]
    cases renderOrderByObj cols n rest with
    | error e => rfl
    | ok p => rfl
  · intro dir hdir hcol
    simp only [renderOrderByObj, hdir, hcol]
  · intro hcol
    simp only [renderOrderByList, hcol]
    cases renderOrderByList cols n restL with
    | error e => rfl
    | ok p => rfl
  · intro hcol
    simp only [renderOrderByList, hcol]

/-- **C8 witness**: the amended behaviour at concrete inputs. -/
theorem c8_amended_witness :
    renderOrderByObj mdE.columns "E" [("a", JVal.jstr "sideways")]
      = (renderOrderByObj mdE.columns "E" []).map
          (fun p => (("?? " ++ jsToUpperCase "sideways") :: p.1,
                     JVal.jstr "a" :: p.2))
    ∧ renderOrderByObj mdE.columns "E" [("a", JVal.jbool false)]
      = renderOrderByObj mdE.columns "E" [] :=
  ⟨((c8_amended mdE.columns "E" "a" (JVal.jstr "sideways")
      { propertyKey := "a", columnName := "a", type := .string } [] []).2.1)
      "sideways" rfl rfl,
   (c8_amended mdE.columns "E" "a" (JVal.jbool false)
      { propertyKey := "a", columnName := "a", type := .string } [] []).1 rfl⟩

/-! ## Claim C7: select-column rendering -/

/-- **C7 (code bug evidence).** On the repository's own test entity
(`createdAt` stored as `created_at`):
with no select list the rendered identifiers are the **property keys**
(`createdAt`), not the database-side column names, so the generated
`SELECT` references a column that does not exist in the table the
repository's tests create; a select entry naming the database column
(`created_at`) is rejected with `ColumnNotFound` (resolution is by
`propertyKey` only); a property-key entry resolves to the database
column name. -/
theorem c7_select_columns_behavior :
    renderSelectColumns mdUser [] none
      = .ok ("??, ??", [JVal.jstr "id", JVal.jstr "createdAt", JVal.jstr "test_users"])
    ∧ renderSelectColumns mdUser [] (some ["created_at"])
      = .error (.columnNotFound "created_at" "User")
    ∧ renderSelectColumns mdUser [] (some ["createdAt"])
      = .ok ("??", [JVal.jstr "created_at", JVal.jstr "test_users"]) :=
  ⟨rfl, rfl, rfl⟩

/-! ## Claim C5: where-value normalization (counterexample) -/

/-- **C5 counterexample.** A bare `Date` operand is **not** treated as
`{$eq: value}`: `typeof date === 'object'`, so it is consumed as an
operator object with no own enumerable keys and renders **no** fragment
at all, unlike the explicit `{$eq: date}` (which renders `?? =  ?`). -/
theorem c5_counterexample :
    renderWhereClauses mdE [("a", JVal.jdate 0)] {} = .ok ([], [])
    ∧ renderWhereClauses mdE [("a", JVal.jdate 0)] {}
      ≠ renderWhereClauses mdE [("a", JVal.jobj [("$eq", JVal.jdate 0)])] {} := by
  refine ⟨rfl, ?_⟩
  intro h
  rw [show renderWhereClauses mdE [("a", JVal.jdate 0)] {} = .ok ([], []) from rfl,
      show renderWhereClauses mdE [("a", JVal.jobj [("$eq", JVal.jdate 0)])] {}
        = .ok (["?? =  ?"], [JVal.jstr "a", JVal.jdate 0]) from rfl] at h
  simp only [Except.ok.injEq, Prod.mk.injEq] at h
  exact List.noConfusion h.1

/-- A supported, spread-safe operator object renders one fragment per
key, in key order. -/
theorem renderWhereOps_supported (cn : String) (fields : List (String × JVal))
    (hsup : fieldsSupported fields) (hsafe : fieldsSpreadSafe fields) :
    ∃ vs, renderWhereOps cn fields = .ok (fields.map (fun q => fragOf q.1), vs) := by
  induction fields with
  | nil => exact ⟨[], rfl⟩
  | cons q rest ih =>
      obtain ⟨k0, v0⟩ := q
      have hq : (operatorQueryMap k0).isSome := hsup (k0, v0) (by simp)
      obtain ⟨⟨op, ph⟩, heq⟩ := Option.isSome_iff_exists.mp hq
      obtain ⟨vs', hrest⟩ :=
        ih (fun x hx => hsup x (List.mem_cons_of_mem _ hx))
          (fun x hx => hsafe x (List.mem_cons_of_mem _ hx))
      have hvals : ∃ ws, operandValues ph v0 = .ok ws := by
        cases ph with
        | none => exact ⟨[], rfl⟩
        | some ps =>
            by_cases hlen : ps.length > 1
            · rcases hsafe (k0, v0) (by simp) op ps heq hlen with ⟨es, hv⟩ | ⟨s, hv⟩
              · have hv2 : v0 = JVal.jarr es := hv
                exact ⟨es, by simp [operandValues, hlen, hv2, spreadValues]⟩
              · have hv2 : v0 = JVal.jstr s := hv
                exact ⟨s.toList.map (fun c => .jstr (String.mk [c])),
                  by simp [operandValues, hlen, hv2, spreadValues]⟩
            · exact ⟨[v0], by simp [operandValues, hlen]⟩
      obtain ⟨ws, hws⟩ := hvals
      refine ⟨(.jstr cn :: ws) ++ vs', ?_⟩
      simp only [renderWhereOps, heq, hws, hrest, List.map_cons]
      have hfrag : fragOf k0 = operatorFragment op ph := by simp [fragOf, heq]
      rw [hfrag]

/-- **C5 amended.** For a resolvable column: a bare scalar or `null`
operand is treated exactly as `{$eq: value}`, emitting the single
fragment `?? =  ?` (the operator template yields a double space — SQL
equivalent to `?? = ?`) with the column name and the value as
parameters; a bare `Date` operand is consumed as an operator object with
no own enumerable keys and emits **no** fragment; an operator-shaped
object is used as-is, emitting one fragment per operator key in emission
order. -/
theorem c5_amended (md : EntityMeta) (k : String) (col : ColumnMeta)
    (hcol : columnMapGet md.columns k = some col) :
    (∀ v : JVal, scalarOrNull v →
      renderWhereList md.columns md.entityName [(k, v)]
        = .ok (["?? =  ?"], [.jstr col.columnName, v])
      ∧ renderWhereList md.columns md.entityName [(k, v)]
        = renderWhereList md.columns md.entityName [(k, .jobj [("$eq", v)])])
    ∧ (∀ t : Int,
        renderWhereList md.columns md.entityName [(k, .jdate t)] = .ok ([], []))
    ∧ (∀ fields, fieldsSupported fields → fieldsSpreadSafe fields →
        ∃ vs, renderWhereList md.columns md.entityName [(k, .jobj fields)]
          = .ok (fields.map (fun q => fragOf q.1), vs)) := by
  have hops_eq : ∀ (cn : String) (v : JVal),
      renderWhereOps cn [("$eq", v)] = .ok (["?? =  ?"], [.jstr cn, v]) :=
    fun cn v => rfl
  refine ⟨?_, ?_, ?_⟩
  · intro v hv
    have hbare : normalizeWhereValue v = [("$eq", v)] := by
      rcases hv with ⟨s, rfl⟩ | ⟨n, rfl⟩ | ⟨b, rfl⟩ | rfl <;> rfl
    constructor
    · simp only [renderWhereList, hcol, hbare, hops_eq, List.append_nil]
    · simp only [renderWhereList, hcol, hbare,
        show normalizeWhereValue (.jobj [("$eq", v)]) = [("$eq", v)] from rfl]
  · intro t
    simp only [renderWhereList, hcol, normalizeWhereValue, renderWhereOps,
      List.append_nil]
  · intro fields hsup hsafe
    obtain ⟨vs, hops⟩ := renderWhereOps_supported col.columnName fields hsup hsafe
    refine ⟨vs, ?_⟩
    simp only [renderWhereList, hcol, normalizeWhereValue, hops, List.append_nil]

/-- **C5 amended witness**: a bare number, a bare `Date`, and a
two-operator object on the fixture entity. -/
theorem c5_amended_witness :
    renderWhereList mdE.columns mdE.entityName [("a", JVal.jnum 3)]
      = .ok (["?? =  ?"], [.jstr "a", JVal.jnum 3])
    ∧ renderWhereList mdE.columns mdE.entityName [("a", JVal.jdate 7)] = .ok ([], [])
    ∧ ∃ vs, renderWhereList mdE.columns mdE.entityName
        [("a", JVal.jobj [("$gt", JVal.jnum 1), ("$lt", JVal.jnum 9)])]
        = .ok ([fragOf "$gt", fragOf "$lt"], vs) := by
  have h := c5_amended mdE "a" { propertyKey := "a", columnName := "a", type := .string } rfl
  refine ⟨(h.1 (JVal.jnum 3) (Or.inr (Or.inl ⟨3, rfl⟩))).1, h.2.1 7, ?_⟩
  exact h.2.2 [("$gt", JVal.jnum 1), ("$lt", JVal.jnum 9)]
    (by
      intro q hq
      simp only [List.mem_cons, List.not_mem_nil, or_false] at hq
      rcases hq with rfl | rfl <;> decide)
    (by
      intro q hq op ps hm hlen
      simp only [List.mem_cons, List.not_mem_nil, or_false] at hq
      rcases hq with rfl | rfl <;>
      · injection hm with h2
        have h3 := congrArg Prod.snd h2
        injection h3 with h4
        rw [← h4] at hlen
        exact absurd hlen (by decide))

/-! ## Claim C6: relation loaders always assign arrays -/

/-- **C6 counterexample.** When the parent entity type has **no**
primary-key column, `loadOneToMany` returns early without touching the
parents: the relation property is left absent (`undefined`), not an
array — contradicting "always … regardless of whether the parent …
has a primary key configured". -/
theorem c6_counterexample :
    loadOneToMany hostD mdNoPk relPosts mdT dbEmpty [[("id", JVal.jnum 1)]] none
      = (.ok [[("id", JVal.jnum 1)]], [])
    ∧ getProp? [("id", JVal.jnum 1)] "posts" = none := ⟨rfl, rfl⟩

/-- **C6 amended.** Provided the early-return guards pass —
for OneToMany: the parent type has a primary key and the `inverseSide`
relation resolves on the target; for ManyToMany: both types have primary
keys and the batch is non-empty — and the batched query succeeds, the
loader assigns an array (possibly empty), never `null`/`undefined`, to
**every** parent, because the final assignment loop is
`map.get(id) || []`. -/
theorem c6_amended (h : Host) (md : EntityMeta) (rel : RelInfo) (tmd : EntityMeta)
    (db : Db) (cfg : Option RelCfg) :
    (∀ (entities : List Obj) (pk : ColumnMeta) (inv : RelInfo)
        (rs : List Obj) (flog : QueryLog),
      primaryKeyOf md = some pk →
      relationMapGet tmd.relations rel.inverseSide = some inv →
      find h tmd db
        (objAssign [(strOr inv.foreignKey (md.tableName ++ "_id"),
            .jobj [("$in", .jarr (entities.map (fun e => getProp e pk.propertyKey)))])]
          (rel.whereExtra.getD []))
        (buildFindOptions cfg) = (.ok rs, flog) →
      ∃ out, loadOneToMany h md rel tmd db entities cfg = (.ok out, flog)
        ∧ out.length = entities.length
        ∧ ∀ e ∈ out, propHoldsArray e rel.propertyKey)
    ∧ (∀ (entities : List Obj) (cpk tpk : ColumnMeta)
        (sp1 : String × List JVal) (rowsRaw : List Obj),
      primaryKeyOf md = some cpk →
      primaryKeyOf tmd = some tpk →
      entities ≠ [] →
      m2mQueryWithWhere rel tmd tpk
        (entities.map (fun e => getProp e cpk.propertyKey)) = .ok sp1 →
      db (m2mQueryWithLimit cfg sp1).1 (m2mQueryWithLimit cfg sp1).2 = .rows rowsRaw →
      ∃ out, loadManyToMany h md rel tmd db entities cfg
          = (.ok out, [((m2mQueryWithLimit cfg sp1).1, (m2mQueryWithLimit cfg sp1).2)])
        ∧ out.length = entities.length
        ∧ ∀ e ∈ out, propHoldsArray e rel.propertyKey) := by
  constructor
  · intro entities pk inv rs flog hpk hinv hfind
    unfold loadOneToMany
    simp only [hpk, hinv, hfind]
    refine ⟨_, rfl, by simp, ?_⟩
    intro e he
    rw [List.mem_map] at he
    obtain ⟨e0, _, rfl⟩ := he
    exact ⟨_, getProp?_setProp _ _ _⟩
  · intro entities cpk tpk sp1 rowsRaw hpk1 hpk2 hne hq hdb
    rcases entities with _ | ⟨e0, es⟩
    · exact absurd rfl hne
    simp only [List.map_cons] at hq
    unfold loadManyToMany
    simp only [hpk1, hpk2, hq, hdb, List.map_cons, List.length_cons]
    refine ⟨_, rfl, by simp, ?_⟩
    intro e he
    rcases List.mem_cons.mp he with rfl | he2
    · exact ⟨_, getProp?_setProp _ _ _⟩
    · rw [List.mem_map] at he2
      obtain ⟨e1, _, rfl⟩ := he2
      exact ⟨_, getProp?_setProp _ _ _⟩

/-- **C6 amended witness**: a concrete one-parent batch through both
loaders (empty related row sets; the assigned value is the empty
array). -/
theorem c6_amended_witness :
    propHoldsArray (setProp [("id", JVal.jnum 1)] "posts" (.jarr [])) "posts"
    ∧ propHoldsArray (setProp [("id", JVal.jnum 1)] "tags" (.jarr [])) "tags" := by
  constructor
  · obtain ⟨out, hout, hlen, hall⟩ :=
      (c6_amended hostD mdP relPosts mdT dbEmpty none).1
        [[("id", JVal.jnum 1)]]
        ⟨"id", "id", .number, false, true, false⟩
        ⟨"user", some "user_id", none, "", "", "", "", none, false⟩
        [] _ rfl rfl rfl
    have hcomp : loadOneToMany hostD mdP relPosts mdT dbEmpty
        [[("id", JVal.jnum 1)]] none
        = (.ok [setProp [("id", JVal.jnum 1)] "posts" (.jarr [])],
           (loadOneToMany hostD mdP relPosts mdT dbEmpty
             [[("id", JVal.jnum 1)]] none).2) := rfl
    have hX : out = [setProp [("id", JVal.jnum 1)] "posts" (.jarr [])] := by
      have h2 := hout.symm.trans hcomp
      simp only [Prod.mk.injEq, Except.ok.injEq] at h2
      exact h2.1
    exact hall _ (by rw [hX]; exact List.mem_singleton_self _)
  · obtain ⟨out, hout, hlen, hall⟩ :=
      (c6_amended hostD mdP relTags mdT dbEmpty none).2
        [[("id", JVal.jnum 1)]]
        ⟨"id", "id", .number, false, true, false⟩
        ⟨"id", "id", .number, false, true, false⟩
        _ [] rfl rfl (fun hcon => List.noConfusion hcon) rfl rfl
    have hcomp : loadManyToMany hostD mdP relTags mdT dbEmpty
        [[("id", JVal.jnum 1)]] none
        = (.ok [setProp [("id", JVal.jnum 1)] "tags" (.jarr [])],
           (loadManyToMany hostD mdP relTags mdT dbEmpty
             [[("id", JVal.jnum 1)]] none).2) := rfl
    have hX : out = [setProp [("id", JVal.jnum 1)] "tags" (.jarr [])] := by
      have h2 := hout.symm.trans hcomp
      simp only [Prod.mk.injEq, Except.ok.injEq] at h2
      exact h2.1
    exact hall _ (by rw [hX]; exact List.mem_singleton_self _)

/-! ## Claim C3: `delete` semantics -/

/-- Every query `findOne` dispatches is a SELECT. -/
theorem findOne_log_select (h : Host) (md : EntityMeta) (db : Db) (w : Obj)
    (opts : FindOpts) :
    ∀ q ∈ (findOne h md db w opts).2, ∃ r, q.1 = "SELECT " ++ r := by
  intro q hq
  unfold findOne at hq
  repeat' (first | split at hq | dsimp only at hq)
  all_goals first
    | exact absurd hq (List.not_mem_nil q)
    | (rcases List.mem_cons.mp hq with rfl | hq2
       · exact ⟨_, rfl⟩
       · exact absurd hq2 (List.not_mem_nil q))

/-- Every query `update` dispatches is an UPDATE or a SELECT — never a
DELETE. -/
theorem update_log_shapes (h : Host) (md : EntityMeta) (db : Db)
    (woe : WhereOrEntity) (upd : Option Obj) (opts : FindOpts) :
    ∀ q ∈ (update h md db woe upd opts).2,
      (∃ r, q.1 = "UPDATE ?? SET " ++ r) ∨ (∃ r, q.1 = "SELECT " ++ r) := by
  intro q hq
  unfold update at hq
  repeat' (first | split at hq | dsimp only at hq)
  all_goals first
    | exact absurd hq (List.not_mem_nil q)
    | (rcases List.mem_cons.mp hq with rfl | hq2
       · exact Or.inl ⟨_, rfl⟩
       · first
         | exact absurd hq2 (List.not_mem_nil q)
         | exact Or.inr (findOne_log_select h md db _ opts q hq2))

/-- **C3.** With soft delete enabled, `delete` never executes a DELETE
statement: it delegates to `update` with the payload
`{softDeleteColumn: new Date()}` and `withDeleted: true` (every
dispatched statement is an UPDATE or a re-fetch SELECT).  Without soft
delete it narrows a live instance to its primary-key value and performs
one hard DELETE, returning the connection's affected-row count. -/
theorem c3_delete_soft_vs_hard (h : Host) (md : EntityMeta) (db : Db) (now : Int) :
    (md.softDelete = true →
      ∀ whereOrE,
        del h md db now whereOrE
          = update h md db whereOrE
              (some [(softDeleteKey md.softDeleteColumn, .jdate now)])
              { withDeleted := true }
        ∧ ∀ q ∈ (del h md db now whereOrE).2,
            (∃ r, q.1 = "UPDATE ?? SET " ++ r) ∨ (∃ r, q.1 = "SELECT " ++ r))
    ∧ (md.softDelete = false →
      (∀ (e : Obj) (pkc : ColumnMeta), primaryKeyOf md = some pkc →
        del h md db now (.entity e)
          = del h md db now (.whereClause [(pkc.propertyKey, getProp e pkc.propertyKey)]))
      ∧ (∀ (w : Obj) (cs : List String) (vs : List JVal),
        renderWhereClauses md w {} = .ok (cs, vs) →
        del h md db now (.whereClause w) =
          (.ok (match db ("DELETE FROM ?? " ++ renderWhereClaude cs)
                  (.jstr md.tableName :: vs) with
                | .header a _ => JVal.jnum a
                | .rows _ => .jundef),
           [("DELETE FROM ?? " ++ renderWhereClaude cs,
             JVal.jstr md.tableName :: vs)]))) := by
  constructor
  · intro hsd whereOrE
    have hdel : del h md db now whereOrE
        = update h md db whereOrE
            (some [(softDeleteKey md.softDeleteColumn, .jdate now)])
            { withDeleted := true } := by
      unfold del
      rw [hsd]
      simp
    refine ⟨hdel, ?_⟩
    rw [hdel]
    exact update_log_shapes h md db whereOrE _ _
  · intro hsd
    constructor
    · intro e pkc hpk
      unfold del
      rw [hsd]
      simp only [Bool.false_eq_true, if_false, hpk]
    · intro w cs vs hrw
      unfold del
      rw [hsd]
      simp only [Bool.false_eq_true, if_false, hrw]

/-- **C3 witness**: the delegation equation on the soft-delete fixture
and the hard-delete query on the plain fixture. -/
theorem c3_delete_soft_vs_hard_witness :
    del hostD mdS dbHeader 5 (.whereClause [("id", JVal.jnum 1)])
      = update hostD mdS dbHeader (.whereClause [("id", JVal.jnum 1)])
          (some [("deletedAt", JVal.jdate 5)]) { withDeleted := true }
    ∧ del hostD mdH dbHeader 5 (.entity [("id", JVal.jnum 7)])
      = del hostD mdH dbHeader 5 (.whereClause [("id", JVal.jnum 7)]) := by
  constructor
  · exact ((c3_delete_soft_vs_hard hostD mdS dbHeader 5).1 rfl
      (.whereClause [("id", JVal.jnum 1)])).1
  · have h := ((c3_delete_soft_vs_hard hostD mdH dbHeader 5).2 rfl).1
      [("id", JVal.jnum 7)] ⟨"id", "id", .number, false, true, false⟩ rfl
    exact h

/-! ## Claim C4: validation errors precede any dispatch -/

/-- A spread-safe operand always yields operator values without a
`TypeError`. -/
theorem operandValues_ok_of_safe (ph : Option (List String)) (v : JVal)
    (hsafe : ∀ ps, ph = some ps → ps.length > 1 →
      (∃ es, v = .jarr es) ∨ (∃ s, v = .jstr s)) :
    ∃ ws, operandValues ph v = .ok ws := by
  cases ph with
  | none => exact ⟨[], rfl⟩
  | some ps =>
      by_cases hlen : ps.length > 1
      · rcases hsafe ps rfl hlen with ⟨es, rfl⟩ | ⟨s, rfl⟩
        · exact ⟨es, by simp [operandValues, hlen, spreadValues]⟩
        · exact ⟨s.toList.map (fun c => .jstr (String.mk [c])),
            by simp [operandValues, hlen, spreadValues]⟩
      · exact ⟨[v], by simp [operandValues, hlen]⟩

/-- Under spread-safety, `renderWhereOps` fails only with
`UnsupportedQueryOperator` (a validation error). -/
theorem renderWhereOps_error_class (cn : String) (fields : List (String × JVal))
    (hsafe : fieldsSpreadSafe fields) :
    ∀ e, renderWhereOps cn fields = .error e → isValidationErr e := by
  induction fields with
  | nil => intro e he; exact Except.noConfusion he
  | cons q rest ih =>
      obtain ⟨k0, v0⟩ := q
      intro e he
      cases hop : operatorQueryMap k0 with
      | none =>
          simp only [renderWhereOps, hop] at he
          injection he with h1
          subst h1
          trivial
      | some p =>
          obtain ⟨op, ph⟩ := p
          obtain ⟨ws, hws⟩ := operandValues_ok_of_safe ph v0
            (fun ps hps hlen => hsafe (k0, v0) (by simp) op ps (by rw [hop, hps]) hlen)
          simp only [renderWhereOps, hop, hws] at he
          cases hrest : renderWhereOps cn rest with
          | error e2 =>
              simp only [hrest] at he
              injection he with h1
              subst h1
              exact ih (fun x hx => hsafe x (List.mem_cons_of_mem _ hx)) e2 hrest
          | ok p2 =>
              obtain ⟨cs, ws2⟩ := p2
              simp only [hrest] at he
              exact Except.noConfusion he

/-- A successful `renderWhereOps` saw only supported operator keys. -/
theorem renderWhereOps_ok_supported (cn : String) (fields : List (String × JVal)) :
    ∀ p, renderWhereOps cn fields = .ok p →
      ∀ q ∈ fields, operatorQueryMap q.1 ≠ none := by
  induction fields with
  | nil => intro p _ q hq; exact absurd hq (List.not_mem_nil q)
  | cons q0 rest ih =>
      obtain ⟨k0, v0⟩ := q0
      intro p hok q hq
      cases hop : operatorQueryMap k0 with
      | none =>
          simp only [renderWhereOps, hop] at hok
          exact Except.noConfusion hok
      | some p0 =>
          obtain ⟨op, ph⟩ := p0
          rcases List.mem_cons.mp hq with rfl | hq2
          · simp [hop]
          · simp only [renderWhereOps, hop] at hok
            cases hov : operandValues ph v0 with
            | error e2 => simp only [hov] at hok; exact Except.noConfusion hok
            | ok ws =>
                simp only [hov] at hok
                cases hrest : renderWhereOps cn rest with
                | error e2 => simp only [hrest] at hok; exact Except.noConfusion hok
                | ok p2 => exact ih p2 hrest q hq2

/-- Under spread-safety, the explicit-keys loop fails only with
`ColumnNotFound` or `UnsupportedQueryOperator`. -/
theorem renderWhereList_error_class (cols : List ColumnMeta) (n : String) (w : Obj)
    (hsafe : spreadSafe w) :
    ∀ e, renderWhereList cols n w = .error e → isValidationErr e := by
  induction w with
  | nil => intro e he; exact Except.noConfusion he
  | cons x rest ih =>
      obtain ⟨k, v⟩ := x
      intro e he
      cases hcol : columnMapGet cols k with
      | none =>
          simp only [renderWhereList, hcol] at he
          injection he with h1
          subst h1
          trivial
      | some col =>
          simp only [renderWhereList, hcol] at he
          cases hops : renderWhereOps col.columnName (normalizeWhereValue v) with
          | error e2 =>
              simp only [hops] at he
              injection he with h1
              subst h1
              exact renderWhereOps_error_class col.columnName _
                (hsafe (k, v) (by simp)) e2 hops
          | ok p =>
              obtain ⟨cs, ws⟩ := p
              simp only [hops] at he
              cases hrest : renderWhereList cols n rest with
              | error e2 =>
                  simp only [hrest] at he
                  injection he with h1
                  subst h1
                  exact ih (fun x hx => hsafe x (List.mem_cons_of_mem _ hx)) e2 hrest
              | ok p2 =>
                  obtain ⟨cs2, ws2⟩ := p2
                  simp only [hrest] at he
                  exact Except.noConfusion he

/-- A successful explicit-keys rendering resolved every key and every
operator. -/
theorem renderWhereList_ok_resolved (cols : List ColumnMeta) (n : String) (w : Obj) :
    ∀ p, renderWhereList cols n w = .ok p →
      ∀ x ∈ w, columnMapGet cols x.1 ≠ none ∧
        ∀ q ∈ normalizeWhereValue x.2, operatorQueryMap q.1 ≠ none := by
  induction w with
  | nil => intro p _ x hx; exact absurd hx (List.not_mem_nil x)
  | cons x0 rest ih =>
      obtain ⟨k, v⟩ := x0
      intro p hok x hx
      cases hcol : columnMapGet cols k with
      | none =>
          simp only [renderWhereList, hcol] at hok
          exact Except.noConfusion hok
      | some col =>
          simp only [renderWhereList, hcol] at hok
          cases hops : renderWhereOps col.columnName (normalizeWhereValue v) with
          | error e2 => simp only [hops] at hok; exact Except.noConfusion hok
          | ok p1 =>
              simp only [hops] at hok
              cases hrest : renderWhereList cols n rest with
              | error e2 => simp only [hrest] at hok; exact Except.noConfusion hok
              | ok p2 =>
                  rcases List.mem_cons.mp hx with rfl | hx2
                  · exact ⟨by simp [hcol],
                      renderWhereOps_ok_supported col.columnName _ p1 hops⟩
                  · exact ih p2 hrest x hx2

/-- `selectResolve` fails only with `ColumnNotFound`. -/
theorem selectResolve_error_class (cols : List ColumnMeta) (n : String)
    (l : List String) :
    ∀ e, selectResolve cols n l = .error e → isValidationErr e := by
  induction l with
  | nil => intro e he; exact Except.noConfusion he
  | cons f rest ih =>
      intro e he
      cases hcol : columnMapGet cols f with
      | none =>
          simp only [selectResolve, hcol] at he
          injection he with h1
          subst h1
          trivial
      | some c =>
          simp only [selectResolve, hcol] at he
          cases hrest : selectResolve cols n rest with
          | error e2 =>
              simp only [hrest] at he
              injection he with h1
              subst h1
              exact ih e2 hrest
          | ok out =>
              simp only [hrest] at he
              exact Except.noConfusion he

/-- A successful `selectResolve` resolved every entry. -/
theorem selectResolve_ok_resolved (cols : List ColumnMeta) (n : String)
    (l : List String) :
    ∀ out, selectResolve cols n l = .ok out →
      ∀ f ∈ l, columnMapGet cols f ≠ none := by
  induction l with
  | nil => intro out _ f hf; exact absurd hf (List.not_mem_nil f)
  | cons f0 rest ih =>
      intro out hok f hf
      cases hcol : columnMapGet cols f0 with
      | none => simp only [selectResolve, hcol] at hok; exact Except.noConfusion hok
      | some c =>
          simp only [selectResolve, hcol] at hok
          cases hrest : selectResolve cols n rest with
          | error e2 => simp only [hrest] at hok; exact Except.noConfusion hok
          | ok out2 =>
              rcases List.mem_cons.mp hf with rfl | hf2
              · simp [hcol]
              · exact ih out2 hrest f hf2

/-- `renderSelectColumns` fails only with `ColumnNotFound`. -/
theorem renderSelectColumns_error_class (md : EntityMeta) (vs : List JVal)
    (sel : Option (List String)) :
    ∀ e, renderSelectColumns md vs sel = .error e → isValidationErr e := by
  intro e he
  unfold renderSelectColumns at he
  cases sel with
  | none => exact Except.noConfusion he
  | some l =>
      by_cases hlen : l.length > 0
      · simp only [hlen, if_pos] at he
        cases hres : selectResolve md.columns md.entityName l with
        | error e2 =>
            simp only [hres] at he
            injection he with h1
            subst h1
            exact selectResolve_error_class md.columns md.entityName l e2 hres
        | ok out => simp only [hres] at he; exact Except.noConfusion he
      · simp only [hlen, if_neg, if_false] at he
        exact Except.noConfusion he

/-- A successful `renderSelectColumns` with a non-empty list resolved
every entry. -/
theorem renderSelectColumns_ok_resolved (md : EntityMeta) (vs : List JVal)
    (sel : Option (List String)) :
    ∀ p, renderSelectColumns md vs sel = .ok p →
      ∀ l, sel = some l → l ≠ [] → ∀ f ∈ l, columnMapGet md.columns f ≠ none := by
  intro p hok l hsel hne f hf
  subst hsel
  unfold renderSelectColumns at hok
  have hlen : l.length > 0 := List.length_pos.mpr hne
  simp only [hlen, if_pos] at hok
  cases hres : selectResolve md.columns md.entityName l with
  | error e2 => simp only [hres] at hok; exact Except.noConfusion hok
  | ok out => exact selectResolve_ok_resolved md.columns md.entityName l out hres f hf

/-- `renderOrderByList` fails only with `ColumnNotFound`. -/
theorem renderOrderByList_error_class (cols : List ColumnMeta) (n : String)
    (fs : List String) :
    ∀ e, renderOrderByList cols n fs = .error e → isValidationErr e := by
  induction fs with
  | nil => intro e he; exact Except.noConfusion he
  | cons f rest ih =>
      intro e he
      cases hcol : columnMapGet cols f with
      | none =>
          simp only [renderOrderByList, hcol] at he
          injection he with h1
          subst h1
          trivial
      | some c =>
          simp only [renderOrderByList, hcol] at he
          cases hrest : renderOrderByList cols n rest with
          | error e2 =>
              simp only [hrest] at he
              injection he with h1
              subst h1
              exact ih e2 hrest
          | ok p => simp only [hrest] at he; exact Except.noConfusion he

/-- A successful list-form order-by resolved every field. -/
theorem renderOrderByList_ok_resolved (cols : List ColumnMeta) (n : String)
    (fs : List String) :
    ∀ p, renderOrderByList cols n fs = .ok p →
      ∀ f ∈ fs, columnMapGet cols f ≠ none := by
  induction fs with
  | nil => intro p _ f hf; exact absurd hf (List.not_mem_nil f)
  | cons f0 rest ih =>
      intro p hok f hf
      cases hcol : columnMapGet cols f0 with
      | none => simp only [renderOrderByList, hcol] at hok; exact Except.noConfusion hok
      | some c =>
          simp only [renderOrderByList, hcol] at hok
          cases hrest : renderOrderByList cols n rest with
          | error e2 => simp only [hrest] at hok; exact Except.noConfusion hok
          | ok p2 =>
              rcases List.mem_cons.mp hf with rfl | hf2
              · simp [hcol]
              · exact ih p2 hrest f hf2

/-- `renderOrderByObj` fails only with `ColumnNotFound`. -/
theorem renderOrderByObj_error_class (cols : List ColumnMeta) (n : String)
    (fs : List (String × JVal)) :
    ∀ e, renderOrderByObj cols n fs = .error e → isValidationErr e := by
  induction fs with
  | nil => intro e he; exact Except.noConfusion he
  | cons x rest ih =>
      obtain ⟨f, d⟩ := x
      intro e he
      cases hd : directionString d with
      | none =>
          simp only [renderOrderByObj, hd] at he
          exact ih e he
      | some dir =>
          simp only [renderOrderByObj, hd] at he
          cases hcol : columnMapGet cols f with
          | none =>
              simp only [hcol] at he
              injection he with h1
              subst h1
              trivial
          | some c =>
              simp only [hcol] at he
              cases hrest : renderOrderByObj cols n rest with
              | error e2 =>
                  simp only [hrest] at he
                  injection he with h1
                  subst h1
                  exact ih e2 hrest
              | ok p => simp only [hrest] at he; exact Except.noConfusion he

/-- A successful object-form order-by resolved every rendered (truthy
string direction) field. -/
theorem renderOrderByObj_ok_resolved (cols : List ColumnMeta) (n : String)
    (fs : List (String × JVal)) :
    ∀ p, renderOrderByObj cols n fs = .ok p →
      ∀ x ∈ fs, (directionString x.2).isSome → columnMapGet cols x.1 ≠ none := by
  induction fs with
  | nil => intro p _ x hx; exact absurd hx (List.not_mem_nil x)
  | cons x0 rest ih =>
      obtain ⟨f, d⟩ := x0
      intro p hok x hx
      cases hd : directionString d with
      | none =>
          simp only [renderOrderByObj, hd] at hok
          rcases List.mem_cons.mp hx with rfl | hx2
          · intro hds; rw [hd] at hds; exact absurd hds (by decide)
          · exact ih p hok x hx2
      | some dir =>
          simp only [renderOrderByObj, hd] at hok
          cases hcol : columnMapGet cols f with
          | none => simp only [hcol] at hok; exact Except.noConfusion hok
          | some c =>
              simp only [hcol] at hok
              cases hrest : renderOrderByObj cols n rest with
              | error e2 => simp only [hrest] at hok; exact Except.noConfusion hok
              | ok p2 =>
                  rcases List.mem_cons.mp hx with rfl | hx2
                  · intro _; simp [hcol]
                  · exact ih p2 hrest x hx2

/-- `renderOrderByClause` fails only with `ColumnNotFound`. -/
theorem renderOrderByClause_error_class (md : EntityMeta) (ob : Option OrderBy) :
    ∀ e, renderOrderByClause md ob = .error e → isValidationErr e := by
  intro e he
  cases ob with
  | none => exact Except.noConfusion he
  | some o =>
      cases o with
      | list fs =>
          unfold renderOrderByClause at he
          cases hr : renderOrderByList md.columns md.entityName fs with
          | error e2 =>
              simp only [hr] at he
              injection he with h1
              subst h1
              exact renderOrderByList_error_class md.columns md.entityName fs e2 hr
          | ok p =>
              obtain ⟨cs, vs⟩ := p
              simp only [hr] at he
              by_cases hl : cs.length > 0 <;> simp [hl] at he
      | obj fs =>
          unfold renderOrderByClause at he
          cases hr : renderOrderByObj md.columns md.entityName fs with
          | error e2 =>
              simp only [hr] at he
              injection he with h1
              subst h1
              exact renderOrderByObj_error_class md.columns md.entityName fs e2 hr
          | ok p =>
              obtain ⟨cs, vs⟩ := p
              simp only [hr] at he
              by_cases hl : cs.length > 0 <;> simp [hl] at he

/-- A successful `renderOrderByClause` resolved every rendered field. -/
theorem renderOrderByClause_ok_resolved (md : EntityMeta) (ob : Option OrderBy) :
    ∀ p, renderOrderByClause md ob = .ok p →
      (∀ fs, ob = some (.list fs) → ∀ f ∈ fs, columnMapGet md.columns f ≠ none)
      ∧ (∀ fs, ob = some (.obj fs) →
          ∀ x ∈ fs, (directionString x.2).isSome → columnMapGet md.columns x.1 ≠ none) := by
  intro p hok
  constructor
  · intro fs hob f hf
    subst hob
    unfold renderOrderByClause at hok
    cases hr : renderOrderByList md.columns md.entityName fs with
    | error e2 => simp only [hr] at hok; exact Except.noConfusion hok
    | ok p2 => exact renderOrderByList_ok_resolved md.columns md.entityName fs p2 hr f hf
  · intro fs hob x hx hds
    subst hob
    unfold renderOrderByClause at hok
    cases hr : renderOrderByObj md.columns md.entityName fs with
    | error e2 => simp only [hr] at hok; exact Except.noConfusion hok
    | ok p2 => exact renderOrderByObj_ok_resolved md.columns md.entityName fs p2 hr x hx hds

/-- `renderWhereClauses` fails exactly when the explicit-keys loop
fails. -/
theorem renderWhereClauses_error_inv (md : EntityMeta) (w : Obj) (opts : FindOpts) :
    ∀ e, renderWhereClauses md w opts = .error e →
      renderWhereList md.columns md.entityName w = .error e := by
  intro e he
  unfold renderWhereClauses at he
  cases hl : renderWhereList md.columns md.entityName w with
  | error e2 => simp only [hl] at he; injection he with h1; subst h1; rfl
  | ok p =>
      obtain ⟨cs, vs⟩ := p
      simp only [hl] at he
      by_cases hc : (!opts.withDeleted && md.softDelete && optStrTruthy md.softDeleteColumn) = true <;>
        simp [hc] at he

/-- A successful `renderWhereClauses` came from a successful
explicit-keys loop. -/
theorem renderWhereClauses_ok_inv (md : EntityMeta) (w : Obj) (opts : FindOpts) :
    ∀ p, renderWhereClauses md w opts = .ok p →
      ∃ p0, renderWhereList md.columns md.entityName w = .ok p0 := by
  intro p hok
  cases hl : renderWhereList md.columns md.entityName w with
  | error e2 =>
      unfold renderWhereClauses at hok
      simp only [hl] at hok
      exact Except.noConfusion hok
  | ok p0 => exact ⟨p0, rfl⟩

/-- When a rendering stage fails, `find` and `findOne` return that error
and dispatch nothing. -/
theorem find_error_stages (h : Host) (md : EntityMeta) (db : Db) (w : Obj)
    (opts : FindOpts) :
    (∀ e, renderWhereClauses md w opts = .error e →
      find h md db w opts = (.error e, []) ∧ findOne h md db w opts = (.error e, []))
    ∧ (∀ cs vs e, renderWhereClauses md w opts = .ok (cs, vs) →
      renderSelectColumns md vs opts.select = .error e →
      find h md db w opts = (.error e, []) ∧ findOne h md db w opts = (.error e, []))
    ∧ (∀ cs vs sc vs2 e, renderWhereClauses md w opts = .ok (cs, vs) →
      renderSelectColumns md vs opts.select = .ok (sc, vs2) →
      renderOrderByClause md opts.orderBy = .error e →
      find h md db w opts = (.error e, []) ∧ findOne h md db w opts = (.error e, [])) := by
  refine ⟨?_, ?_, ?_⟩
  · intro e hwc
    constructor
    · unfold find; simp only [hwc]
    · unfold findOne; simp only [hwc]
  · intro cs vs e hwc hsel
    constructor
    · unfold find; simp only [hwc, hsel]
    · unfold findOne; simp only [hwc, hsel]
  · intro cs vs sc vs2 e hwc hsel hob
    constructor
    · unfold find; simp only [hwc, hsel, hob]
    · unfold findOne; simp only [hwc, hsel, hob]

/-- **C4.** For a `find`/`findOne` call whose `where`, `select`, or
`orderBy` descriptor references a column absent from the column map or
an operator outside the supported set (and whose operands do not
provoke an earlier JS `TypeError`), a `ColumnNotFound` or
`UnsupportedQueryOperator` error is raised during clause rendering and
**zero** queries are dispatched to the connection. -/
theorem c4_validation_before_dispatch (h : Host) (md : EntityMeta) (db : Db)
    (w : Obj) (opts : FindOpts) (hsafe : spreadSafe w)
    (hbad : badWhereRef md w ∨ badSelectRef md opts.select ∨ badOrderRef md opts.orderBy) :
    ∃ e, isValidationErr e
      ∧ find h md db w opts = (.error e, [])
      ∧ findOne h md db w opts = (.error e, []) := by
  cases hwc : renderWhereClauses md w opts with
  | error e =>
      have hl := renderWhereClauses_error_inv md w opts e hwc
      exact ⟨e, renderWhereList_error_class md.columns md.entityName w hsafe e hl,
        (find_error_stages h md db w opts).1 e hwc⟩
  | ok p =>
      obtain ⟨cs, vs⟩ := p
      cases hsel : renderSelectColumns md vs opts.select with
      | error e =>
          exact ⟨e, renderSelectColumns_error_class md vs opts.select e hsel,
            (find_error_stages h md db w opts).2.1 cs vs e hwc hsel⟩
      | ok p2 =>
          obtain ⟨sc, vs2⟩ := p2
          cases hob : renderOrderByClause md opts.orderBy with
          | error e =>
              exact ⟨e, renderOrderByClause_error_class md opts.orderBy e hob,
                (find_error_stages h md db w opts).2.2 cs vs sc vs2 e hwc hsel hob⟩
          | ok p3 =>
              exfalso
              obtain ⟨p0, hl⟩ := renderWhereClauses_ok_inv md w opts (cs, vs) hwc
              rcases hbad with hbw | hbs | hbo
              · obtain ⟨x, hx, hxbad⟩ := hbw
                have hres := renderWhereList_ok_resolved md.columns md.entityName w p0 hl x hx
                rcases hxbad with hnone | ⟨q, hq, hqnone⟩
                · exact hres.1 hnone
                · exact hres.2 q hq hqnone
              · obtain ⟨l, hselq, hne, f, hf, hfnone⟩ := hbs
                exact renderSelectColumns_ok_resolved md vs opts.select (sc, vs2) hsel
                  l hselq hne f hf hfnone
              · have hores := renderOrderByClause_ok_resolved md opts.orderBy p3 hob
                rcases hbo with ⟨fs, hobq, f, hfs, hfnone⟩ | ⟨fs, hobq, x, hxs, hds, hxnone⟩
                · exact hores.1 fs hobq f hfs hfnone
                · exact hores.2 fs hobq x hxs hds hxnone

/-- **C4 witness**: a where-descriptor naming an unregistered column on
the fixture entity renders a `ColumnNotFound` and dispatches nothing. -/
theorem c4_validation_before_dispatch_witness :
    ∃ e, isValidationErr e
      ∧ find hostD mdE dbEmpty [("nope", JVal.jnull)] {} = (.error e, [])
      ∧ findOne hostD mdE dbEmpty [("nope", JVal.jnull)] {} = (.error e, []) := by
  apply c4_validation_before_dispatch
  · intro x hx q hq op ps hm hlen
    simp only [List.mem_cons, List.not_mem_nil, or_false] at hx
    subst hx
    simp only [normalizeWhereValue, List.mem_cons, List.not_mem_nil, or_false] at hq
    subst hq
    injection hm with h2
    have h3 := congrArg Prod.snd h2
    injection h3 with h4
    rw [← h4] at hlen
    exact absurd hlen (by decide)
  · exact Or.inl ⟨("nope", JVal.jnull), by simp, Or.inl rfl⟩

/-! ## Claim C1: the row ↔ entity round trip -/

theorem dedupFirst_go (l : List String) :
    ∀ acc, (acc ++ l).Nodup →
      l.foldl (fun acc k => if k ∈ acc then acc else acc ++ [k]) acc = acc ++ l := by
  induction l with
  | nil => intro acc _; simp
  | cons x xs ih =>
      intro acc h
      have hx : x ∉ acc := by
        intro hmem
        have hd := (List.nodup_append.mp h).2.2
        exact hd hmem (List.mem_cons_self x xs)
      have h2 : ((acc ++ [x]) ++ xs).Nodup := by
        rw [List.append_assoc]
        simpa using h
      simp only [List.foldl_cons, if_neg hx]
      rw [ih (acc ++ [x]) h2, List.append_assoc]
      rfl

/-- `Map.keys()` of a duplicate-free key list is the list itself. -/
theorem dedupFirst_of_nodup (l : List String) (h : l.Nodup) : dedupFirst l = l := by
  have := dedupFirst_go l [] (by simpa using h)
  simpa [dedupFirst] using this

/-- With duplicate-free property keys, `find?` by a member's key returns
exactly that member. -/
theorem find?_key_unique (l : List ColumnMeta)
    (hnd : (l.map (fun c => c.propertyKey)).Nodup) :
    ∀ c ∈ l, l.find? (fun x => x.propertyKey == c.propertyKey) = some c := by
  induction l with
  | nil => intro c hc; exact absurd hc (List.not_mem_nil c)
  | cons d rest ih =>
      intro c hc
      have hnd2 : (rest.map (fun c => c.propertyKey)).Nodup := (List.nodup_cons.mp hnd).2
      have hdd : d.propertyKey ∉ rest.map (fun c => c.propertyKey) :=
        (List.nodup_cons.mp hnd).1
      by_cases hk : d.propertyKey == c.propertyKey
      · have hkeq : d.propertyKey = c.propertyKey := by simpa using hk
        rcases List.mem_cons.mp hc with rfl | hc2
        · simp [List.find?, hk]
        · exfalso
          apply hdd
          rw [hkeq]
          exact List.mem_map_of_mem _ hc2
      · rcases List.mem_cons.mp hc with rfl | hc2
        · exact absurd (by simp) hk
        · simp only [List.find?, hk]
          exact ih hnd2 c hc2

/-- With duplicate-free property keys, the cached column map resolves a
member's key to that member. -/
theorem columnMapGet_self (cols : List ColumnMeta)
    (hnd : (cols.map (fun c => c.propertyKey)).Nodup) :
    ∀ c ∈ cols, columnMapGet cols c.propertyKey = some c := by
  intro c hc
  unfold columnMapGet
  have hnd2 : (cols.reverse.map (fun c => c.propertyKey)).Nodup := by
    rw [List.map_reverse]
    exact List.nodup_reverse.mpr hnd
  exact find?_key_unique cols.reverse hnd2 c (List.mem_reverse.mpr hc)

theorem filterMap_some_self {α : Type} (f : α → Option α) :
    ∀ l : List α, (∀ a ∈ l, f a = some a) → l.filterMap f = l := by
  intro l
  induction l with
  | nil => intro _; rfl
  | cons x xs ih =>
      intro hf
      rw [List.filterMap_cons, hf x (List.mem_cons_self x xs),
        ih (fun a ha => hf a (List.mem_cons_of_mem x ha))]

/-- With duplicate-free property keys, iterating `_columnMap.entries()`
is iterating the declared columns. -/
theorem columnMapEntries_self (cols : List ColumnMeta)
    (hnd : (cols.map (fun c => c.propertyKey)).Nodup) :
    columnMapEntries cols = cols := by
  unfold columnMapEntries columnMapKeys
  rw [dedupFirst_of_nodup _ hnd, List.filterMap_map]
  exact filterMap_some_self _ cols (fun c hc => columnMapGet_self cols hnd c hc)

/-- Assigning a fresh key appends the property. -/
theorem setProp_append (o : Obj) (k : String) (v : JVal)
    (h : ∀ p ∈ o, p.1 ≠ k) : setProp o k v = o ++ [(k, v)] := by
  induction o with
  | nil => rfl
  | cons p rest ih =>
      have hp : p.1 ≠ k := h p (List.mem_cons_self p rest)
      simp only [setProp, beq_eq_false_iff_ne.mpr hp, if_false]
      rw [ih (fun q hq => h q (List.mem_cons_of_mem p hq))]
      rfl

/-- Folding fresh-key assignments over an accumulator appends the keyed
values in order. -/
theorem foldl_setProp_of_nodup (key : ColumnMeta → String) (valf : ColumnMeta → JVal) :
    ∀ (cs : List ColumnMeta) (acc : Obj),
      (cs.map key).Nodup → (∀ c ∈ cs, ∀ p ∈ acc, p.1 ≠ key c) →
      cs.foldl (fun ent c => setProp ent (key c) (valf c)) acc
        = acc ++ cs.map (fun c => (key c, valf c)) := by
  intro cs
  induction cs with
  | nil => intro acc _ _; simp
  | cons c rest ih =>
      intro acc hnd hfresh
      have hstep : setProp acc (key c) (valf c) = acc ++ [(key c, valf c)] :=
        setProp_append acc (key c) (valf c)
          (fun p hp => hfresh c (List.mem_cons_self c rest) p hp)
      simp only [List.foldl_cons, hstep]
      rw [ih (acc ++ [(key c, valf c)]) (List.nodup_cons.mp hnd).2 ?_, List.append_assoc]
      · rfl
      · intro c2 hc2 p hp
        rcases List.mem_append.mp hp with hp1 | hp2
        · exact hfresh c2 (List.mem_cons_of_mem c hc2) p hp1
        · rw [List.mem_singleton] at hp2
          subst hp2
          intro hkk
          apply (List.nodup_cons.mp hnd).1
          have hkk2 : key c = key c2 := hkk
          rw [hkk2]
          exact List.mem_map_of_mem key hc2

/-- Looking a member's key up in the keyed-map rendering of a
duplicate-free column list returns its value. -/
theorem getProp?_map_key (key : ColumnMeta → String) (valf : ColumnMeta → JVal) :
    ∀ (cs : List ColumnMeta), (cs.map key).Nodup → ∀ c ∈ cs,
      getProp? (cs.map (fun c => (key c, valf c))) (key c) = some (valf c) := by
  intro cs
  induction cs with
  | nil => intro _ c hc; exact absurd hc (List.not_mem_nil c)
  | cons d rest ih =>
      intro hnd c hc
      by_cases hk : key d == key c
      · have hkeq : key d = key c := by simpa using hk
        rcases List.mem_cons.mp hc with rfl | hc2
        · simp [getProp?, List.find?, hk]
        · exfalso
          apply (List.nodup_cons.mp hnd).1
          rw [hkeq]
          exact List.mem_map_of_mem key hc2
      · rcases List.mem_cons.mp hc with rfl | hc2
        · exact absurd (by simp) hk
        · simp only [getProp?, List.map_cons, List.find?, hk]
          exact ih (List.nodup_cons.mp hnd).2 c hc2

/-- With no `afterLoad` hook and duplicate-free property keys, the
hydrated entity is exactly the declared columns' coerced row values, in
declaration order. -/
theorem mapToEntity_eq (h : Host) (md : EntityMeta) (row : Obj)
    (ha : md.transformHooks.afterLoad = none)
    (hnd : (md.columns.map (fun c => c.propertyKey)).Nodup) :
    mapToEntity h md row = md.columns.map (fun c => (c.propertyKey,
      match getProp row c.columnName with
      | .jnull => JVal.jnull
      | .jundef => JVal.jundef
      | v => coerceIn h c.type v)) := by
  unfold mapToEntity
  simp only [ha]
  rw [columnMapEntries_self md.columns hnd]
  have hfold := foldl_setProp_of_nodup (fun c => c.propertyKey)
    (fun c => match getProp row c.columnName with
      | .jnull => JVal.jnull
      | .jundef => JVal.jundef
      | v => coerceIn h c.type v) md.columns [] hnd
    (fun c _ p hp => absurd hp (List.not_mem_nil p))
  simpa using hfold

/-- The `mapToDB` loop over an entity whose properties are exactly the
columns' keys writes one value per column. -/
theorem mapToDBLoop_map (h : Host) (md : EntityMeta) (ev g : ColumnMeta → JVal) :
    ∀ (cs : List ColumnMeta) (acc : Obj),
      (∀ c ∈ cs, columnMapGet md.columns c.propertyKey = some c) →
      (∀ c ∈ cs, dbWrite h c (ev c) = .ok (g c)) →
      mapToDBLoop h md (cs.map (fun c => (c.propertyKey, ev c))) acc
        = .ok (cs.foldl (fun acc c => setProp acc c.columnName (g c)) acc) := by
  intro cs
  induction cs with
  | nil => intro acc _ _; rfl
  | cons c rest ih =>
      intro acc hget hw
      have hget0 := hget c (List.mem_cons_self c rest)
      have hw0 := hw c (List.mem_cons_self c rest)
      simp only [List.map_cons, mapToDBLoop, hget0, hw0, List.foldl_cons]
      exact ih (setProp acc c.columnName (g c))
        (fun x hx => hget x (List.mem_cons_of_mem c hx))
        (fun x hx => hw x (List.mem_cons_of_mem c hx))

/-- `mapToDB` of the hydrated-entity shape, with no `beforeSave` hook
and duplicate-free column names. -/
theorem mapToDB_built (h : Host) (md : EntityMeta) (ev g : ColumnMeta → JVal)
    (hb : md.transformHooks.beforeSave = none)
    (hget : ∀ c ∈ md.columns, columnMapGet md.columns c.propertyKey = some c)
    (hw : ∀ c ∈ md.columns, dbWrite h c (ev c) = .ok (g c))
    (hcn : (md.columns.map (fun c => c.columnName)).Nodup) :
    mapToDB h md (md.columns.map (fun c => (c.propertyKey, ev c)))
      = .ok (md.columns.map (fun c => (c.columnName, g c))) := by
  unfold mapToDB
  simp only [hb]
  rw [mapToDBLoop_map h md ev g md.columns [] hget hw]
  rw [foldl_setProp_of_nodup (fun c => c.columnName) g md.columns [] hcn
    (fun c _ p hp => absurd hp (List.not_mem_nil p))]
  simp

/-- Decimal digits are never `'T'`. -/
theorem digitChar_ne_T (n : Nat) : (digitChar n == 'T') = false := by
  unfold digitChar
  have hlt : n % 10 < 10 := Nat.mod_lt _ (by decide)
  generalize n % 10 = m at hlt
  interval_cases m <;> decide

/-- `.replace('T', ' ')` passes through the date digits and dashes and
flips exactly the date/time separator. -/
theorem replaceFirst_core (y mo d : Nat) (rest : List Char) :
    replaceFirstChar 'T' ' ' (pad4 y ++ '-' :: pad2 mo ++ '-' :: pad2 d ++ 'T' :: rest)
      = pad4 y ++ '-' :: pad2 mo ++ '-' :: pad2 d ++ ' ' :: rest := by
  simp [pad4, pad2, replaceFirstChar, digitChar_ne_T]

/-- The first 19 ISO characters have the `YYYY-MM-DDTHH:mm:ss` shape. -/
theorem isoCoreChars_shape (s : Int) : ∃ y mo d hh mi ss, isoCoreChars s
    = pad4 y ++ '-' :: pad2 mo ++ '-' :: pad2 d ++
      'T' :: pad2 hh ++ ':' :: pad2 mi ++ ':' :: pad2 ss :=
  ⟨_, _, _, _, _, _, rfl⟩

theorem isoCoreChars_length (s : Int) : (isoCoreChars s).length = 19 := by
  obtain ⟨y, mo, d, hh, mi, ss, heq⟩ := isoCoreChars_shape s
  rw [heq]
  simp [pad4, pad2]

/-- `.slice(0, 19)` of the ISO string is exactly its whole-second
prefix. -/
theorem isoChars_take (t : Int) : (isoChars t).take 19 = isoCoreChars (t.fdiv 1000) := by
  unfold isoChars
  rw [← isoCoreChars_length (t.fdiv 1000)]
  exact List.take_left _ _

/-- The rendered date string depends only on whole seconds: the
formatting truncates to second precision. -/
theorem jsDateFormat_truncate (t : Int) :
    jsDateFormat t = jsDateFormat (1000 * (t.fdiv 1000)) := by
  unfold jsDateFormat
  rw [isoChars_take, isoChars_take, Int.mul_fdiv_cancel_left _ (by decide : (1000 : Int) ≠ 0)]

/-- The rendered date string has the `YYYY-MM-DD hh:mm:ss` shape. -/
theorem jsDateFormat_shape (t : Int) : ∃ y mo d hh mi ss, jsDateFormat t
    = String.mk (pad4 y ++ '-' :: pad2 mo ++ '-' :: pad2 d ++
        ' ' :: pad2 hh ++ ':' :: pad2 mi ++ ':' :: pad2 ss) := by
  obtain ⟨y, mo, d, hh, mi, ss, heq⟩ := isoCoreChars_shape (t.fdiv 1000)
  refine ⟨y, mo, d, hh, mi, ss, ?_⟩
  unfold jsDateFormat
  rw [isoChars_take, heq]
  exact congrArg String.mk (replaceFirst_core y mo d (pad2 hh ++ ':' :: pad2 mi ++ ':' :: pad2 ss))

/-- **C1.** For an entity type with no transform hooks, duplicate-free
property keys and column names, and a row whose values are well-formed
for the declared column types, `mapToDB (mapToEntity row)` succeeds and
reproduces every column's value up to the documented lossy coercions
(`documentedCoercion`): identity on strings, numbers, `0`/`1` booleans
and `null`; JS booleans become `0`/`1`; dates become the formatted
timestamp string (second-truncating, `YYYY-MM-DD hh:mm:ss`-shaped, as
the last two conjuncts state); json strings round-trip through
parse/stringify. -/
theorem c1_row_entity_roundtrip (h : Host) (md : EntityMeta) (row : Obj)
    (hb : md.transformHooks.beforeSave = none)
    (ha : md.transformHooks.afterLoad = none)
    (hpk : (md.columns.map (fun c => c.propertyKey)).Nodup)
    (hcn : (md.columns.map (fun c => c.columnName)).Nodup)
    (hwf : ∀ c ∈ md.columns, ∃ v, getProp? row c.columnName = some v ∧
      wfValue h c.type v) :
    (∃ dbRow, mapToDB h md (mapToEntity h md row) = .ok dbRow
      ∧ ∀ c ∈ md.columns, ∀ v, getProp? row c.columnName = some v →
          getProp? dbRow c.columnName = some (documentedCoercion h c.type v))
    ∧ (∀ t : Int, jsDateFormat t = jsDateFormat (1000 * (t.fdiv 1000)))
    ∧ (∀ t : Int, ∃ y mo d hh mi ss, jsDateFormat t
        = String.mk (pad4 y ++ '-' :: pad2 mo ++ '-' :: pad2 d ++
            ' ' :: pad2 hh ++ ':' :: pad2 mi ++ ':' :: pad2 ss)) := by
  refine ⟨?_, jsDateFormat_truncate, jsDateFormat_shape⟩
  have hget : ∀ c ∈ md.columns, columnMapGet md.columns c.propertyKey = some c :=
    fun c hc => columnMapGet_self md.columns hpk c hc
  have hw : ∀ c ∈ md.columns,
      dbWrite h c ((fun c => match getProp row c.columnName with
        | .jnull => JVal.jnull
        | .jundef => JVal.jundef
        | v => coerceIn h c.type v) c)
      = .ok ((fun c => documentedCoercion h c.type (getProp row c.columnName)) c) := by
    intro c hc
    obtain ⟨v, hv, hwfv⟩ := hwf c hc
    have hgp : getProp row c.columnName = v := by simp [getProp, hv]
    show dbWrite h c (match getProp row c.columnName with
        | .jnull => JVal.jnull
        | .jundef => JVal.jundef
        | v => coerceIn h c.type v)
      = .ok (documentedCoercion h c.type (getProp row c.columnName))
    rw [hgp]
    rcases hwfv with rfl | hty
    · rfl
    · cases htyp : c.type
      case string =>
        have hty2 : ∃ s, v = JVal.jstr s := by rw [htyp] at hty; exact hty
        obtain ⟨s, rfl⟩ := hty2
        simp [dbWrite, coerceIn, coerceOut, documentedCoercion, htyp]
      case number =>
        have hty2 : ∃ n, v = JVal.jnum n := by rw [htyp] at hty; exact hty
        obtain ⟨n, rfl⟩ := hty2
        simp [dbWrite, coerceIn, coerceOut, documentedCoercion, htyp]
      case boolean =>
        have hty2 : v = .jbool true ∨ v = .jbool false ∨ v = .jnum 0 ∨ v = .jnum 1 := by
          rw [htyp] at hty; exact hty
        rcases hty2 with rfl | rfl | rfl | rfl <;>
          simp [dbWrite, coerceIn, coerceOut, documentedCoercion, htyp, jsTruthy]
      case date =>
        have hty2 : ∃ t, v = JVal.jdate t := by rw [htyp] at hty; exact hty
        obtain ⟨t, rfl⟩ := hty2
        simp [dbWrite, coerceIn, coerceOut, documentedCoercion, htyp]
      case json =>
        have hty2 : ∃ s j, v = .jstr s ∧ h.jsonParse s = some j ∧
            j ≠ .jnull ∧ j ≠ .jundef := by
          rw [htyp] at hty; exact hty
        obtain ⟨s, j, rfl, hparse, hjn, hju⟩ := hty2
        cases j with
        | jnull => exact absurd rfl hjn
        | jundef => exact absurd rfl hju
        | jbool b => simp [dbWrite, coerceIn, coerceOut, documentedCoercion, htyp, hparse]
        | jnum n => simp [dbWrite, coerceIn, coerceOut, documentedCoercion, htyp, hparse]
        | jstr s2 => simp [dbWrite, coerceIn, coerceOut, documentedCoercion, htyp, hparse]
        | jdate t => simp [dbWrite, coerceIn, coerceOut, documentedCoercion, htyp, hparse]
        | jarr es => simp [dbWrite, coerceIn, coerceOut, documentedCoercion, htyp, hparse]
        | jobj fs => simp [dbWrite, coerceIn, coerceOut, documentedCoercion, htyp, hparse]
  have hE := mapToEntity_eq h md row ha hpk
  have hDB : mapToDB h md (md.columns.map (fun c => (c.propertyKey,
        match getProp row c.columnName with
        | .jnull => JVal.jnull
        | .jundef => JVal.jundef
        | v => coerceIn h c.type v)))
      = .ok (md.columns.map (fun c => (c.columnName,
          documentedCoercion h c.type (getProp row c.columnName)))) :=
    mapToDB_built h md _ _ hb hget hw hcn
  refine ⟨md.columns.map (fun c => (c.columnName,
    documentedCoercion h c.type (getProp row c.columnName))), ?_, ?_⟩
  · rw [hE]
    exact hDB
  · intro c hc v hv
    have hgp : getProp row c.columnName = v := by simp [getProp, hv]
    have hlook : getProp? (md.columns.map (fun c => (c.columnName,
        documentedCoercion h c.type (getProp row c.columnName)))) c.columnName
        = some (documentedCoercion h c.type (getProp row c.columnName)) :=
      getProp?_map_key (fun c => c.columnName)
        (fun c => documentedCoercion h c.type (getProp row c.columnName)) md.columns hcn c hc
    rw [hlook, hgp]

/-- **C1 witness**: a concrete five-type row on the fixture entity; the
date column round-trips to its formatted string. -/
theorem c1_row_entity_roundtrip_witness :
    ∃ dbRow, mapToDB hostD mdW (mapToEntity hostD mdW rowW) = .ok dbRow
      ∧ getProp? dbRow "d" = some (.jstr (jsDateFormat 1000)) := by
  have hwf : ∀ c ∈ mdW.columns, ∃ v, getProp? rowW c.columnName = some v ∧
      wfValue hostD c.type v := by
    intro c hc
    simp only [mdW, List.mem_cons, List.not_mem_nil, or_false] at hc
    rcases hc with rfl | rfl | rfl | rfl | rfl
    · exact ⟨.jstr "x", rfl, Or.inr ⟨"x", rfl⟩⟩
    · exact ⟨.jnum 5, rfl, Or.inr ⟨5, rfl⟩⟩
    · exact ⟨.jnum 1, rfl, Or.inr (Or.inr (Or.inr (Or.inr rfl)))⟩
    · exact ⟨.jdate 1000, rfl, Or.inr ⟨1000, rfl⟩⟩
    · exact ⟨.jstr "{}", rfl, Or.inr ⟨"{}", .jobj [], rfl, rfl,
        fun hcon => JVal.noConfusion hcon, fun hcon => JVal.noConfusion hcon⟩⟩
  obtain ⟨⟨dbRow, hdb, hall⟩, _, _⟩ :=
    c1_row_entity_roundtrip hostD mdW rowW rfl rfl (by decide) (by decide) hwf
  refine ⟨dbRow, hdb, ?_⟩
  have hcol := hall ⟨"d", "d", .date, false, false, false⟩
    (List.mem_cons_of_mem _ (List.mem_cons_of_mem _ (List.mem_cons_of_mem _
      (List.mem_cons_self _ _)))) (JVal.jdate 1000) rfl
  exact hcol

end LwOrm
